import Mathlib

/-!
# PNG to PNM decoder (`main.c`): scanline reconstruction, header validation, chunk loop

A shallow embedding of `paethPredictor`, `filterTypes`, `composePNMHeader`,
`isPaletteGrayscale`, `readChunk` and of `main` up to the call of `uncompress`.

* `unsigned int` values are natural numbers reduced modulo `2 ^ 32` (`u32`, `u32sub`);
* `unsigned char` values are natural numbers, every store reduces modulo `256`;
* the `int` loop counters `i` and `j` only count upwards, from `0` and from `1`, and enter the
  index arithmetic and the loop tests as `unsigned int`; they are natural numbers here (C
  leaves the overflow of an `int` counter beyond `2 ^ 31 - 1` undefined);
* buffers are lists of bytes and every access is bounds checked: an access outside a buffer
  (undefined behaviour in C) ends the run with the outcome `fault`;
* the output file is the list of the bytes written so far;
* an input stream is the list of the bytes of the file and a position; `malloc` is taken to
  succeed; the chunk loop runs with a bound on its turns that no stream reaches.
-/

namespace PNG

/-! ## Machine arithmetic -/

/-- Reduction of a natural number to an `unsigned int` (32 bits). -/
def u32 (n : Nat) : Nat := n % 4294967296

/-- Subtraction of two `unsigned int` values, wrapping around below zero. -/
def u32sub (a b : Nat) : Nat := (a + (4294967296 - b % 4294967296)) % 4294967296

/-- The C library function `abs` on `int` (no overflow is modelled: the callers pass
differences of byte values). -/
def intAbs (x : Int) : Int := if x < 0 then -x else x

/-- Conversion of an `int` to `unsigned char`. -/
def toUChar (x : Int) : Nat := (x % 256).toNat

/-! ## `paethPredictor` (main.c, lines 166-184) -/

/-- The function `paethPredictor`: `int` arguments, `unsigned char` result. -/
def paethPredictor (a b c : Int) : Nat :=
  let p := a + b - c
  let pa := intAbs (p - a)
  let pb := intAbs (p - b)
  let pc := intAbs (p - c)
  if pa ≤ pb ∧ pa ≤ pc then toUChar a
  else if pb ≤ pc then toUChar b
  else toUChar c

/-! ## `filterTypes` (main.c, lines 186-255) -/

/-- How a call of `filterTypes` ends: with an access outside a buffer, or by returning `code`
with the final contents of the inflated buffer `res`, of the scratch row `templine` and of the
output file `out`. -/
inductive Outcome where
  | fault : Outcome
  | ret (code : Int) (res templine out : List Nat) : Outcome
  deriving DecidableEq, Repr

/-- Result of a loop body: an access outside a buffer, an early `return -1`, or the buffer with
which the loop goes on. -/
inductive Step where
  | fault : Step
  | stop (res : List Nat) : Step
  | next (res : List Nat) : Step
  deriving DecidableEq, Repr

/-- The compound assignment `res[k] += x` on `unsigned char`, where `x` is the value of the
right-hand side (`none` when one of its reads is outside the buffer). -/
def addAt (res : List Nat) (k : Nat) (x : Option Nat) : Step :=
  match res[k]?, x with
  | some old, some v => Step.next (res.set k ((old + v) % 256))
  | _, _ => Step.fault

/-- Body of the inner loop of `filterTypes` (lines 195-235) for row `i`, in-row offset `j` and
the filter byte `filter` of the row. The pointer `temp` of line 197 is never dereferenced and is
left out. -/
def pixel (scanLineLength depth i filter j : Nat) (res : List Nat) : Step :=
  let number1 := u32 (u32 (u32 (scanLineLength + 1) * i) + j)
  let number2 := u32 (u32 (u32 (scanLineLength + 1) * u32sub i 1) + j)
  if filter = 1 ∧ j > depth then
    addAt res number1 res[u32sub number1 depth]?
  else if filter = 2 ∧ i > 0 then
    addAt res number1 res[number2]?
  else if filter = 3 ∧ i > 0 then
    if j > depth then
      addAt res number1
        (res[number2]?.bind fun up => res[u32sub number1 depth]?.map fun left => (up + left) / 2)
    else
      addAt res number1 (res[number2]?.map fun up => up / 2)
  else if filter = 4 then
    if i > 0 ∧ j > depth then
      addAt res number1
        (res[u32sub number1 depth]?.bind fun left => res[number2]?.bind fun up =>
          res[u32sub number2 depth]?.map fun upLeft => paethPredictor left up upLeft)
    else if i > 0 then
      addAt res number1 res[number2]?
    else
      addAt res number1 res[u32sub number1 depth]?
  else if filter ≠ 0 ∧ filter ≠ 1 ∧ filter ≠ 2 ∧ filter ≠ 3 ∧ filter ≠ 4 then
    Step.stop res
  else
    Step.next res

/-- The inner loop `for (int j = 1; j <= scanLineLength; j++)`, started at `j` with `n`
iterations left (`filterTypes` starts it at `j = 1` with `n = scanLineLength`). -/
def rowLoop (scanLineLength depth i filter : Nat) : Nat → Nat → List Nat → Step
  | 0, _, res => Step.next res
  | n + 1, j, res =>
    match pixel scanLineLength depth i filter j res with
    | Step.next res' => rowLoop scanLineLength depth i filter n (j + 1) res'
    | Step.stop res' => Step.stop res'
    | Step.fault => Step.fault

/-- The C library function `memcpy (dst + dOff, src + sOff, n)`, bounds checked on both
sides. -/
def memcpy (dst : List Nat) (dOff : Nat) (src : List Nat) (sOff n : Nat) : Option (List Nat) :=
  if sOff + n ≤ src.length ∧ dOff + n ≤ dst.length then
    some (dst.take dOff ++ ((src.drop sOff).take n ++ dst.drop (dOff + n)))
  else none

/-- The bytes that `fwrite (buf + off, 1, n, out)` appends to the file, bounds checked. -/
def fwrite (buf : List Nat) (off n : Nat) : Option (List Nat) :=
  if off + n ≤ buf.length then some ((buf.drop off).take n) else none

/-- The palette loop `for (int j = 0; j < width; j++)` of lines 241-246 with `n` iterations
left, `src` and `dst` being the current offsets into `res` and `templine`. -/
def paletteLoop (palette : List Nat) (trueDepth : Nat) (res : List Nat) :
    Nat → Nat → Nat → List Nat → Option (List Nat)
  | 0, _, _, templine => some templine
  | n + 1, src, dst, templine =>
    match res[src]? with
    | none => none
    | some index =>
      match memcpy templine dst palette (index * 3) trueDepth with
      | none => none
      | some templine' => paletteLoop palette trueDepth res n (src + 1) (dst + trueDepth) templine'

/-- Emission of row `i` (lines 237-252): the new `templine` and the bytes appended to `out`. -/
def emitRow (scanLineLength width i : Nat) (indexed : Bool) (palette : List Nat)
    (trueDepth : Nat) (res templine : List Nat) : Option (List Nat × List Nat) :=
  if indexed then
    match paletteLoop palette trueDepth res width (u32 (u32 (i * u32 (scanLineLength + 1)) + 1)) 0
        templine with
    | none => none
    | some templine' =>
      match fwrite templine' 0 (u32 (width * trueDepth)) with
      | none => none
      | some bytes => some (templine', bytes)
  else
    match fwrite res (u32 (i * u32 (scanLineLength + 1)) + 1) scanLineLength with
    | none => none
    | some bytes => some (templine, bytes)

/-- The outer loop `for (int i = 0; i < height; ++i)`, started at row `i` with `n` rows
left. -/
def rowsLoop (scanLineLength width depth : Nat) (indexed : Bool) (palette : List Nat)
    (trueDepth : Nat) : Nat → Nat → List Nat → List Nat → List Nat → Outcome
  | 0, _, res, templine, out => Outcome.ret 0 res templine out
  | n + 1, i, res, templine, out =>
    match res[u32 (i * u32 (scanLineLength + 1))]? with
    | none => Outcome.fault
    | some filter =>
      match rowLoop scanLineLength depth i filter scanLineLength 1 res with
      | Step.fault => Outcome.fault
      | Step.stop res' => Outcome.ret (-1) res' templine out
      | Step.next res' =>
        match emitRow scanLineLength width i indexed palette trueDepth res' templine with
        | none => Outcome.fault
        | some (templine', bytes) =>
          rowsLoop scanLineLength width depth indexed palette trueDepth n (i + 1) res' templine'
            (out ++ bytes)

/-- The function `filterTypes`; `out` is the content of the output file before the call. -/
def filterTypes (res : List Nat) (height width depth : Nat) (indexed : Bool)
    (palette templine : List Nat) (trueDepth : Nat) (out : List Nat) : Outcome :=
  let scanLineLength := u32 (depth * width)
  rowsLoop scanLineLength width depth indexed palette trueDepth height 0 res templine out

/-! ## Header validation (main.c, lines 24-40, 102-105, 143-164 and 300-334) -/

/-- Modelled from the spec: the header `return_codes.h` is not among the sources; the process
outcomes are distinct status codes, named as `main` names them. -/
inductive ReturnCode where
  | SUCCESS
  | ERROR_CANNOT_OPEN_FILE
  | ERROR_OUT_OF_MEMORY
  | ERROR_DATA_INVALID
  | ERROR_PARAMETER_INVALID
  | ERROR_UNSUPPORTED
  deriving DecidableEq, Repr

/-- The structure `PNG_Chunk`; `data` is the flexible array member. -/
structure PNG_Chunk where
  length : Nat
  type : List Nat
  crc : Nat
  data : List Nat
  deriving DecidableEq, Repr

/-- The structure `PNG_Header`. -/
structure PNG_Header where
  width : Nat
  height : Nat
  depth : Nat
  colType : Nat
  mustbe0 : Nat
  interlaced : Nat
  deriving DecidableEq, Repr

/-- The C library function `strncmp` on byte strings; the end of a list counts as the
terminating NUL. -/
def strncmp : List Nat → List Nat → Nat → Int
  | _, _, 0 => 0
  | s1, s2, n + 1 =>
    if s1.headD 0 ≠ s2.headD 0 then (s1.headD 0 : Int) - (s2.headD 0 : Int)
    else if s1.headD 0 = 0 then 0
    else strncmp s1.tail s2.tail n

/-- The function `swapUInt`: the big-endian value of the four bytes at `a`. -/
def swapUInt (a : List Nat) : Option Nat :=
  a[0]?.bind fun a0 => a[1]?.bind fun a1 => a[2]?.bind fun a2 => a[3]?.map fun a3 =>
    u32 (a0 <<< 24) ||| u32 (a1 <<< 16) ||| u32 (a2 <<< 8) ||| a3

/-- The function `isPNGSupported`. -/
def isPNGSupported (hdr : PNG_Header) : Bool :=
  if hdr.interlaced ≠ 0 then false
  else if hdr.depth ≠ 8 then false
  else if hdr.colType ≠ 0 ∧ hdr.colType ≠ 2 ∧ hdr.colType ≠ 3 then false
  else true

/-- Distance of the Paeth estimate `a + b - c` to the value `x`. -/
def paethDist (a b c x : Int) : Int := |a + b - c - x|

/-- Smallest of the three distances of the Paeth estimate to its arguments. -/
def paethMin (a b c : Int) : Int :=
  min (min (paethDist a b c a) (paethDist a b c b)) (paethDist a b c c)

/-- The samples of scanline `i` of a buffer whose rows hold one filter byte and `stride`
samples. -/
def rowSamples (stride : Nat) (buf : List Nat) (i : Nat) : List Nat :=
  (buf.drop (i * (stride + 1) + 1)).take stride

/-- The `t` bytes of the palette that start at entry `s`. -/
def paletteEntry (palette : List Nat) (t s : Nat) : List Nat :=
  (palette.drop (3 * s)).take t

/-- The expansion of a row of palette indices. -/
def expandRow (palette : List Nat) (t : Nat) (samples : List Nat) : List Nat :=
  (samples.map (paletteEntry palette t)).flatten

/-- The bytes that row `i` of the reconstructed buffer `buf` contributes to the output: the
expansion of its first `width` samples for an indexed image, its samples otherwise. -/
def rowOutput (stride width : Nat) (indexed : Bool) (palette : List Nat) (t : Nat)
    (buf : List Nat) (i : Nat) : List Nat :=
  if indexed then expandRow palette t ((buf.drop (i * (stride + 1) + 1)).take width)
  else rowSamples stride buf i

/-- The accesses of the palette loop on the reconstructed buffer `buf` stay inside the scratch
row and the palette: `width * trueDepth` is below `2 ^ 32` and at most the length of
`templine`, and each of the first `width` samples `s` of each of the `height` rows of `buf`
(rows of one filter byte and `stride` samples) has the `trueDepth` bytes from `3 * s` on inside
the palette. -/
def expansionFits (stride height width trueDepth : Nat) (palette templine buf : List Nat) :
    Prop :=
  width * trueDepth < 4294967296 ∧ width * trueDepth ≤ templine.length ∧
    ∀ i, i < height → ∀ k, k < width →
      buf.getD (i * (stride + 1) + 1 + k) 0 * 3 + trueDepth ≤ palette.length

instance (stride height width trueDepth : Nat) (palette templine buf : List Nat) :
    Decidable (expansionFits stride height width trueDepth palette templine buf) := by
  unfold expansionFits
  infer_instance

/-! ## `composePNMHeader` (main.c, lines 257-265) -/

/-- The `int` that has the bit pattern of the `unsigned int` value `n`. -/
def toInt32 (n : Nat) : Int :=
  if n % 4294967296 < 2147483648 then ((n % 4294967296 : Nat) : Int)
  else ((n % 4294967296 : Nat) : Int) - 4294967296

/-- The characters that the C library function `fprintf` writes for the conversion `%d`. -/
def printfD (x : Int) : List Nat := (toString x).toList.map Char.toNat

/-- The function `composePNMHeader`: the output file after
`fprintf (out, "P%c\n%d %d\n255\n", ct, width, height)`, where the conversions `%d` receive the
`unsigned int` arguments as `int`. -/
def composePNMHeader (out : List Nat) (width height depth : Nat) : List Nat :=
  let ct := if depth = 3 then 54 else 53
  out ++ ([80, ct, 10] ++ (printfD (toInt32 width) ++ ([32] ++
    (printfD (toInt32 height) ++ [10, 50, 53, 53, 10]))))

/-! ## `isPaletteGrayscale` (main.c, lines 267-277) -/

/-- The loop of `isPaletteGrayscale` with `n` palette entries left, `cp` being the offset of
the current entry; the second comparison is evaluated only when the first one holds. -/
def isPaletteGrayscaleLoop (pal : List Nat) : Nat → Nat → Bool → Option Bool
  | 0, _, isGS => some isGS
  | n + 1, cp, isGS =>
    if isGS then
      match pal[cp]?, pal[cp + 1]? with
      | some a, some b =>
        if a = b then
          match pal[cp + 2]? with
          | some c => isPaletteGrayscaleLoop pal n (cp + 3) (a == c)
          | none => none
        else isPaletteGrayscaleLoop pal n (cp + 3) false
      | _, _ => none
    else some isGS

/-- The function `isPaletteGrayscale`; `none` stands for a read outside the palette. -/
def isPaletteGrayscale (pal : List Nat) (palLength : Nat) : Option Bool :=
  isPaletteGrayscaleLoop pal palLength 0 true

/-! ## `readChunk` (main.c, lines 107-141) -/

/-- An input stream: the bytes of the file and the read position. -/
structure FILE where
  content : List Nat
  pos : Nat
  deriving DecidableEq, Repr

/-- The C library function `fread (ptr, size, count, f)`: the bytes transferred (at most
`size * count`, fewer at the end of the file) and the stream afterwards; the value returned by
`fread` is the number of complete items, the number of bytes divided by `size`. -/
def fread (size count : Nat) (f : FILE) : List Nat × FILE :=
  ((f.content.drop f.pos).take (size * count),
    { f with pos := f.pos + ((f.content.drop f.pos).take (size * count)).length })

/-- The value of an `unsigned int` that was read byte by byte on a little-endian machine. -/
def le32 (b : List Nat) : Nat :=
  b.getD 0 0 + 256 * (b.getD 1 0 + 256 * (b.getD 2 0 + 256 * b.getD 3 0))

/-- The function `readChunk`: the chunk read (`none` for `NULL`) and the stream afterwards.
The allocation `malloc` is taken to succeed. -/
def readChunk (f : FILE) : Option PNG_Chunk × FILE :=
  let r1 := fread 4 1 f
  if r1.1.length / 4 < 1 then (none, r1.2)
  else
    match swapUInt r1.1 with
    | none => (none, r1.2)
    | some tmp =>
      if tmp < 0 then (none, r1.2)
      else
        let r2 := fread 1 4 r1.2
        if r2.1.length / 1 < 4 then (none, r2.2)
        else
          let r3 := fread 1 tmp r2.2
          if r3.1.length / 1 < tmp then (none, r3.2)
          else
            let r4 := fread 4 1 r3.2
            if r4.1.length / 4 < 1 then (none, r4.2)
            else (some { length := tmp, type := r2.1, crc := le32 r4.1, data := r3.1 }, r4.2)

/-! ## The chunk loop of `main` (main.c, lines 336-436) -/

/-- How a stage of `main` ends: with an access outside a buffer, with a `return` of a status
code, by going on with the value `a`, or, for a loop with an iteration bound, without having
finished within the bound. -/
inductive Ended (α : Type) where
  | fault : Ended α
  | exit (code : ReturnCode) : Ended α
  | proceed (a : α) : Ended α
  | unfinished : Ended α
  deriving DecidableEq, Repr

/-- The string literal `"PLTE"`, with its terminating NUL. -/
def PLTE : List Nat := [80, 76, 84, 69, 0]

/-- The string literal `"IDAT"`, with its terminating NUL. -/
def IDAT : List Nat := [73, 68, 65, 84, 0]

/-- The string literal `"IEND"`, with its terminating NUL. -/
def IEND : List Nat := [73, 69, 78, 68, 0]

/-- The local variables of `main` that the chunk loop changes: `palette` is `none` for `NULL`,
`data` is the buffer of `fullfs` bytes and `cp` the offset of the pointer `cp` in it. -/
structure LoopState where
  palFound : Bool
  palette : Option (List Nat)
  palLength : Nat
  data : List Nat
  cp : Nat
  trueSize : Nat
  deriving DecidableEq, Repr

/-- What one turn of the chunk loop ends with. -/
inductive Turn where
  | fault : Turn
  | exit (code : ReturnCode) : Turn
  | again (st : LoopState) : Turn
  | eof (st : LoopState) : Turn
  deriving DecidableEq, Repr

/-- The body of the `do ... while (!eof)` loop of `main` (lines 355-409) after the call of
`readChunk` with the result `chunk`. The allocation of the palette is taken to succeed. -/
def chunkTurn (st : LoopState) (chunk : Option PNG_Chunk) : Turn :=
  match chunk with
  | none => Turn.exit ReturnCode.ERROR_DATA_INVALID
  | some ch =>
    if strncmp ch.type PLTE 4 = 0 then
      if ch.length % 3 ≠ 0 then Turn.exit ReturnCode.ERROR_DATA_INVALID
      else
        match memcpy (List.replicate ch.length 0) 0 ch.data 0 ch.length with
        | none => Turn.fault
        | some palette =>
          Turn.again { st with palette := some palette, palLength := ch.length / 3,
                               palFound := true }
    else if strncmp ch.type IDAT 4 = 0 then
      if ch.length > 0 then
        match memcpy st.data st.cp ch.data 0 ch.length with
        | none => Turn.fault
        | some data =>
          Turn.again { st with data := data, cp := st.cp + ch.length,
                               trueSize := u32 (st.trueSize + ch.length) }
      else Turn.again st
    else if strncmp ch.type IEND 4 = 0 then Turn.eof st
    else Turn.again st

/-- The `do ... while (!eof)` loop of `main`, with at most `n` turns. -/
def chunkLoop : Nat → FILE → LoopState → Ended LoopState
  | 0, _, _ => Ended.unfinished
  | n + 1, f, st =>
    match chunkTurn st (readChunk f).1 with
    | Turn.fault => Ended.fault
    | Turn.exit code => Ended.exit code
    | Turn.eof st' => Ended.proceed st'
    | Turn.again st' => chunkLoop n (readChunk f).2 st'

/-- The function `fSize`: the size of the file as an `int`, and the stream with its position
set back by `fseek` to the `int` that `ftell` gave (a negative offset makes `fseek` fail and
leaves the position at the end of the file). -/
def fSize (f : FILE) : Int × FILE :=
  (toInt32 f.content.length,
    { f with pos := if 0 ≤ toInt32 f.pos then (toInt32 f.pos).toNat else f.content.length })

/-- Conversion of an `int` to `size_t` (64 bits). -/
def sizeT (x : Int) : Nat := (x % 18446744073709551616).toNat

/-- Lines 336-412 of `main`: the buffer `data` of `fullfs` bytes and the chunk loop, on the
stream as the header stage leaves it. Every chunk read takes at least 12 bytes of the stream,
so the loop makes fewer turns than the bound given here. The allocation `malloc` is taken to
succeed. -/
def mainChunks (f : FILE) : Ended LoopState :=
  chunkLoop ((fSize f).2.content.length + 1) (fSize f).2
    { palFound := false, palette := none, palLength := 0,
      data := List.replicate (sizeT (fSize f).1) 0, cp := 0, trueSize := 0 }

/-- The condition of the cross-check of line 414. -/
def crossCheck (hdr : PNG_Header) (palFound : Bool) : Bool :=
  (hdr.colType == 0 && palFound) || (hdr.colType == 3 && !palFound)

/-- The values with which `main` goes on to the decompression. -/
structure Prepared where
  trueDepth : Nat
  srcDepth : Nat
  indexed : Bool
  decompressSize : Nat
  deriving DecidableEq, Repr

/-- The expression `hdr.height * (hdr.width * srcDepth + 1)` of line 438, computed in
`unsigned int` and then converted to `size_t`. -/
def decompressSize (hdr : PNG_Header) (srcDepth : Nat) : Nat :=
  u32 (hdr.height * u32 (u32 (hdr.width * srcDepth) + 1))

/-- Lines 414-438 of `main`: the cross-check of colour type and palette, and the values
`trueDepth`, `srcDepth`, `indexed` and `decompressSize`. -/
def mainPrepare (hdr : PNG_Header) (st : LoopState) : Ended Prepared :=
  if crossCheck hdr st.palFound then Ended.exit ReturnCode.ERROR_DATA_INVALID
  else
    let trueDepth := if hdr.colType = 0 then 1 else 3
    let srcDepth := if hdr.colType ≠ 2 then 1 else 3
    if hdr.colType = 3 then
      match st.palette with
      | none => Ended.fault
      | some pal =>
        match isPaletteGrayscale pal st.palLength with
        | none => Ended.fault
        | some gs =>
          Ended.proceed { trueDepth := if gs then 1 else trueDepth, srcDepth := srcDepth,
                          indexed := true, decompressSize := decompressSize hdr srcDepth }
    else
      Ended.proceed { trueDepth := trueDepth, srcDepth := srcDepth, indexed := false,
                      decompressSize := decompressSize hdr srcDepth }

/-! ## The forward filters None, Sub and Up -/

/-- The header `P5` or `P6`, width, height and 255 of a PNM file, the numbers in decimal. -/
def pnmHeader (trueDepth width height : Nat) : List Nat :=
  ("P" ++ ((if trueDepth = 3 then "6" else "5") ++ ("\n" ++ (toString width ++ (" " ++
    (toString height ++ "\n255\n")))))).toList.map Char.toNat

/-- The big-endian value of four bytes. -/
def be32 (b0 b1 b2 b3 : Nat) : Nat := ((b0 * 256 + b1) * 256 + b2) * 256 + b3

/-- The chunks that at most `n` successive calls of `readChunk` return before one fails. -/
def readChunks : Nat → FILE → List PNG_Chunk
  | 0, _ => []
  | n + 1, f =>
    match (readChunk f).1 with
    | none => []
    | some ch => ch :: readChunks n (readChunk f).2

/-- The sequence of the chunks that can be read from the stream `f`. -/
def chunksOf (f : FILE) : List PNG_Chunk := readChunks (f.content.length + 1) f

/-- The chunk carries the type tag PLTE. -/
def isPLTE (ch : PNG_Chunk) : Bool := ch.type == [80, 76, 84, 69]

/-- The chunk carries the type tag IDAT. -/
def isIDAT (ch : PNG_Chunk) : Bool := ch.type == [73, 68, 65, 84]

/-- The chunk carries the type tag IEND. -/
def isIEND (ch : PNG_Chunk) : Bool := ch.type == [73, 69, 78, 68]

/-- The payloads of the IDAT chunks of a sequence, one after the other. -/
def idatPayload (cs : List PNG_Chunk) : List Nat :=
  ((cs.filter isIDAT).map fun ch => ch.data).flatten

/-- The sum of the lengths of the IDAT chunks of a sequence. -/
def idatTotal (cs : List PNG_Chunk) : Nat :=
  ((cs.filter isIDAT).map fun ch => ch.length).sum

/-- The last PLTE chunk of a sequence. -/
def lastPLTE (cs : List PNG_Chunk) : Option PNG_Chunk := (cs.filter isPLTE).getLast?

/-- The turns of the chunk loop on a sequence of chunks, up to the first turn that does not
go on to the next chunk. -/
def foldTurns (st : LoopState) : List PNG_Chunk → Turn
  | [] => Turn.again st
  | ch :: cs =>
    match chunkTurn st (some ch) with
    | Turn.again st' => foldTurns st' cs
    | Turn.eof st' => Turn.eof st'
    | Turn.exit code => Turn.exit code
    | Turn.fault => Turn.fault

/-- How the chunk loop ends when its turns on the chunks read end with `t`: after the last
chunk read, the next call of `readChunk` fails. -/
def endOfTurns : Turn → Ended LoopState
  | Turn.again _ => Ended.exit ReturnCode.ERROR_DATA_INVALID
  | Turn.eof st => Ended.proceed st
  | Turn.exit code => Ended.exit code
  | Turn.fault => Ended.fault

/-! ## The Paeth predictor -/

theorem intAbs_eq_abs (x : Int) : intAbs x = |x| := by
  unfold intAbs
  split_ifs with h
  · exact (abs_of_neg h).symm
  · exact (abs_of_nonneg (not_lt.mp h)).symm

theorem toUChar_byte (a : Nat) (ha : a < 256) : toUChar (a : Int) = a := by
  unfold toUChar
  omega

theorem paethPredictor_byte (a b c : Nat) (ha : a < 256) (hb : b < 256) (hc : c < 256) :
    paethPredictor a b c =
      if paethDist a b c a ≤ paethDist a b c b ∧ paethDist a b c a ≤ paethDist a b c c then a
      else if paethDist a b c b ≤ paethDist a b c c then b
      else c := by
  simp only [paethPredictor, paethDist, intAbs_eq_abs, toUChar_byte, ha, hb, hc]

/-- C1. For byte values `a` (left), `b` (above) and `c` (upper-left), `paethPredictor a b c` is
one of `a`, `b`, `c`, its distance to the estimate `a + b - c` is the smallest of the three
distances, it is `a` whenever `a` is at the smallest distance, and `b` whenever `b` is at the
smallest distance and `a` is not; and `paethPredictor 10 10 10` is 10. -/
theorem paethPredictor_spec (a b c : Nat) (ha : a < 256) (hb : b < 256) (hc : c < 256) :
    (paethPredictor a b c = a ∨ paethPredictor a b c = b ∨ paethPredictor a b c = c) ∧
    paethDist a b c (paethPredictor a b c) = paethMin a b c ∧
    (paethDist a b c a = paethMin a b c → paethPredictor a b c = a) ∧
    (paethDist a b c b = paethMin a b c → paethDist a b c a ≠ paethMin a b c →
      paethPredictor a b c = b) ∧
    paethPredictor 10 10 10 = 10 := by
  have h10 : paethPredictor 10 10 10 = 10 := by
    simp [paethPredictor, intAbs, toUChar]
  refine ⟨?_, ?_, ?_, ?_, h10⟩
  all_goals
    rw [paethPredictor_byte a b c ha hb hc]
    try unfold paethMin
    generalize hx : paethDist a b c a = x
    generalize hy : paethDist a b c b = y
    generalize hz : paethDist a b c c = z
    split_ifs with h1 h2
    all_goals simp only [min_def, hx, hy, hz]
    all_goals first
      | omega
      | (split_ifs <;> omega)
      | (intro h3; split_ifs at h3 <;> omega)
      | (intro h3 h4; split_ifs at h3 h4 <;> omega)
      | simp

/-- C1 (witness). The predictor at left 3, above 200, upper-left 100: the estimate is 103 and
the value returned, 100, is at the smallest distance. -/
theorem paethPredictor_spec_witness :
    ((3 : Nat) < 256 ∧ (200 : Nat) < 256 ∧ (100 : Nat) < 256) ∧
      paethDist ((3 : Nat) : Int) ((200 : Nat) : Int) ((100 : Nat) : Int)
          (paethPredictor ((3 : Nat) : Int) ((200 : Nat) : Int) ((100 : Nat) : Int)) =
        paethMin ((3 : Nat) : Int) ((200 : Nat) : Int) ((100 : Nat) : Int) :=
  ⟨⟨by decide, by decide, by decide⟩,
    (paethPredictor_spec 3 200 100 (by decide) (by decide) (by decide)).2.1⟩

/-! ## Facts about the machine arithmetic -/

theorem u32_of_lt {n : Nat} (h : n < 4294967296) : u32 n = n := Nat.mod_eq_of_lt h

theorem u32sub_of_le {a b : Nat} (hb : b ≤ a) (ha : a < 4294967296) : u32sub a b = a - b := by
  unfold u32sub
  have h1 : b % 4294967296 = b := Nat.mod_eq_of_lt (by omega)
  rw [h1]
  have h2 : a + (4294967296 - b) = (a - b) + 4294967296 := by omega
  rw [h2, Nat.add_mod_right]
  exact Nat.mod_eq_of_lt (by omega)

theorem u32sub_of_lt {a b : Nat} (hab : a < b) (hb : b < 4294967296) :
    u32sub a b = a + 4294967296 - b := by
  unfold u32sub
  have h1 : b % 4294967296 = b := Nat.mod_eq_of_lt hb
  rw [h1]
  have h2 : a + (4294967296 - b) = a + 4294967296 - b := by omega
  rw [h2]
  exact Nat.mod_eq_of_lt (by omega)

/-- The index `number1` of `filterTypes` when the row fits the 32-bit arithmetic. -/
theorem number1_eq {sll i j : Nat} (h : (sll + 1) * i + j < 4294967296) :
    u32 (u32 (u32 (sll + 1) * i) + j) = (sll + 1) * i + j := by
  unfold u32
  rw [Nat.mod_mul_mod, Nat.mod_add_mod]
  exact Nat.mod_eq_of_lt h

/-- The index `number2` of `filterTypes` below the first row. -/
theorem number2_eq {sll i j : Nat} (hi : 0 < i) (h : (sll + 1) * i + j < 4294967296) :
    u32 (u32 (u32 (sll + 1) * u32sub i 1) + j) = (sll + 1) * (i - 1) + j := by
  have hi2 : i < 4294967296 := by
    have : i ≤ (sll + 1) * i := Nat.le_mul_of_pos_left i (by omega)
    omega
  rw [u32sub_of_le hi hi2]
  have h2 : (sll + 1) * (i - 1) + j < 4294967296 := by
    have : (sll + 1) * (i - 1) ≤ (sll + 1) * i := Nat.mul_le_mul_left _ (by omega)
    omega
  exact number1_eq h2

/-- The index of the filter byte of row `i`. -/
theorem filterIndex_eq {sll i : Nat} (h : i * (sll + 1) < 4294967296) :
    u32 (i * u32 (sll + 1)) = i * (sll + 1) := by
  unfold u32
  rw [Nat.mul_mod_mod]
  exact Nat.mod_eq_of_lt h

/-! ## The loop body: what it writes and when it stops -/

theorem addAt_next {res res' : List Nat} {k : Nat} {x : Option Nat}
    (h : addAt res k x = Step.next res') :
    ∃ old v, res[k]? = some old ∧ x = some v ∧ res' = res.set k ((old + v) % 256) := by
  unfold addAt at h
  cases h1 : res[k]? with
  | none => simp [h1] at h
  | some old =>
    cases x with
    | none => simp [h1] at h
    | some v =>
      simp only [h1, Step.next.injEq] at h
      exact ⟨old, v, rfl, rfl, h.symm⟩

theorem addAt_ne_stop (res r : List Nat) (k : Nat) (x : Option Nat) :
    addAt res k x ≠ Step.stop r := by
  unfold addAt
  split <;> simp

theorem addAt_some {res : List Nat} {k old v : Nat} (h1 : res[k]? = some old) :
    addAt res k (some v) = Step.next (res.set k ((old + v) % 256)) := by
  unfold addAt
  rw [h1]

/-- A step of the inner loop that goes on changed at most the byte at `number1`. -/
theorem pixel_next {sll depth i filter j : Nat} {res res' : List Nat}
    (h : pixel sll depth i filter j res = Step.next res') :
    res' = res ∨ ∃ v, res' = res.set (u32 (u32 (u32 (sll + 1) * i) + j)) v := by
  unfold pixel at h
  simp only at h
  split_ifs at h
  all_goals first
    | (injection h with h; exact Or.inl h.symm)
    | cases h
    | (obtain ⟨old, v, -, -, h3⟩ := addAt_next h; exact Or.inr ⟨_, h3⟩)

/-- The early return happens exactly for a filter byte above 4, and leaves the buffer as it
is. -/
theorem pixel_stop {sll depth i filter j : Nat} {res r : List Nat}
    (h : pixel sll depth i filter j res = Step.stop r) : 4 < filter ∧ r = res := by
  unfold pixel at h
  simp only at h
  split_ifs at h with h1 h2 h3 h4 h5 h6 h7 h8
  all_goals first
    | exact absurd h (addAt_ne_stop _ _ _ _)
    | (injection h with h; exact ⟨by omega, h.symm⟩)

theorem pixel_of_bad_filter (sll depth i j : Nat) (res : List Nat) {filter : Nat}
    (h : 4 < filter) : pixel sll depth i filter j res = Step.stop res := by
  unfold pixel
  simp only
  rw [if_neg (by omega), if_neg (by omega), if_neg (by omega), if_neg (by omega),
    if_pos (by omega)]

theorem pixel_next_length {sll depth i filter j : Nat} {res res' : List Nat}
    (h : pixel sll depth i filter j res = Step.next res') : res'.length = res.length := by
  rcases pixel_next h with h1 | ⟨v, h1⟩ <;> simp [h1]

theorem pixel_next_get {sll depth i filter j : Nat} {res res' : List Nat}
    (h : pixel sll depth i filter j res = Step.next res') (k : Nat)
    (hk : k ≠ u32 (u32 (u32 (sll + 1) * i) + j)) : res'[k]? = res[k]? := by
  rcases pixel_next h with h1 | ⟨v, h1⟩
  · rw [h1]
  · rw [h1, List.getElem?_set_ne (Ne.symm hk)]

/-! ## The inner loop -/

theorem rowLoop_succ (sll depth i filter n j : Nat) (res : List Nat) :
    rowLoop sll depth i filter (n + 1) j res =
      match pixel sll depth i filter j res with
      | Step.next res' => rowLoop sll depth i filter n (j + 1) res'
      | Step.stop res' => Step.stop res'
      | Step.fault => Step.fault := rfl

/-- The inner loop changes only bytes of its own row, at the offsets it runs through. -/
theorem rowLoop_next_frame {sll depth i filter : Nat} :
    ∀ (n j : Nat) (res res' : List Nat), (sll + 1) * i + j + n ≤ 4294967296 →
      rowLoop sll depth i filter n j res = Step.next res' →
      res'.length = res.length ∧
        ∀ k, (k < (sll + 1) * i + j ∨ (sll + 1) * i + j + n ≤ k) → res'[k]? = res[k]? := by
  intro n
  induction n with
  | zero =>
    intro j res res' _ h
    simp only [rowLoop] at h
    injection h with h
    subst h
    exact ⟨rfl, fun _ _ => rfl⟩
  | succ n ih =>
    intro j res res' hb h
    rw [rowLoop_succ] at h
    split at h
    · rename_i m hm
      obtain ⟨hl, hg⟩ := ih (j + 1) m res' (by omega) h
      refine ⟨by rw [hl, pixel_next_length hm], fun k hk => ?_⟩
      rw [hg k (by omega)]
      apply pixel_next_get hm
      rw [number1_eq (by omega)]
      omega
    · cases h
    · cases h

theorem rowLoop_stop {sll depth i filter : Nat} :
    ∀ (n j : Nat) (res r : List Nat),
      rowLoop sll depth i filter n j res = Step.stop r → 4 < filter ∧ r = res := by
  intro n
  induction n with
  | zero =>
    intro j res r h
    simp only [rowLoop] at h
    cases h
  | succ n ih =>
    intro j res r h
    rw [rowLoop_succ] at h
    split at h
    · rename_i m hm
      have h4 := (ih (j + 1) m r h).1
      rw [pixel_of_bad_filter sll depth i j res h4] at hm
      cases hm
    · rename_i m hm
      injection h with h
      subst h
      exact pixel_stop hm
    · cases h

theorem rowLoop_of_bad_filter (sll depth i j : Nat) (res : List Nat) {filter n : Nat}
    (h : 4 < filter) (hn : 0 < n) : rowLoop sll depth i filter n j res = Step.stop res := by
  cases n with
  | zero => omega
  | succ n => rw [rowLoop_succ, pixel_of_bad_filter sll depth i j res h]

theorem rowsLoop_succ (sll width depth : Nat) (indexed : Bool) (palette : List Nat)
    (trueDepth n i : Nat) (res templine out : List Nat) :
    rowsLoop sll width depth indexed palette trueDepth (n + 1) i res templine out =
      match res[u32 (i * u32 (sll + 1))]? with
      | none => Outcome.fault
      | some filter =>
        match rowLoop sll depth i filter sll 1 res with
        | Step.fault => Outcome.fault
        | Step.stop res' => Outcome.ret (-1) res' templine out
        | Step.next res' =>
          match emitRow sll width i indexed palette trueDepth res' templine with
          | none => Outcome.fault
          | some (templine', bytes) =>
            rowsLoop sll width depth indexed palette trueDepth n (i + 1) res' templine'
              (out ++ bytes) := rfl

/-- One turn of the outer loop that goes on: the filter byte read, the reconstructed buffer and
the emitted bytes. -/
theorem rowsLoop_succ_ret {sll width depth : Nat} {indexed : Bool} {palette : List Nat}
    {trueDepth n i : Nat} {res templine out res' templine' out' : List Nat} {c : Int}
    (h : rowsLoop sll width depth indexed palette trueDepth (n + 1) i res templine out =
      Outcome.ret c res' templine' out') :
    ∃ filter, res[u32 (i * u32 (sll + 1))]? = some filter ∧
      ((rowLoop sll depth i filter sll 1 res = Step.stop res' ∧ c = -1 ∧
          templine' = templine ∧ out' = out) ∨
        ∃ r2 t2 bytes, rowLoop sll depth i filter sll 1 res = Step.next r2 ∧
          emitRow sll width i indexed palette trueDepth r2 templine = some (t2, bytes) ∧
          rowsLoop sll width depth indexed palette trueDepth n (i + 1) r2 t2 (out ++ bytes) =
            Outcome.ret c res' templine' out') := by
  rw [rowsLoop_succ] at h
  split at h
  · cases h
  · rename_i filter hf
    refine ⟨filter, hf, ?_⟩
    split at h
    · cases h
    · rename_i r hr
      injection h with h1 h2 h3 h4
      subst h2
      exact Or.inl ⟨hr, h1.symm, h3.symm, h4.symm⟩
    · rename_i r2 hr
      split at h
      · cases h
      · rename_i t2 bytes he
        exact Or.inr ⟨r2, t2, bytes, hr, he, h⟩

/-- The outer loop started at row `i0` changes no byte of the rows above `i0` or below its
last row. -/
theorem rowsLoop_frame {sll width depth : Nat} {indexed : Bool} {palette : List Nat}
    {trueDepth : Nat} :
    ∀ (n i0 : Nat) (res templine out res' templine' out' : List Nat) (c : Int),
      (i0 + n) * (sll + 1) < 4294967296 →
      rowsLoop sll width depth indexed palette trueDepth n i0 res templine out =
        Outcome.ret c res' templine' out' →
      res'.length = res.length ∧
        ∀ k, (k < i0 * (sll + 1) + 1 ∨ (i0 + n) * (sll + 1) ≤ k) → res'[k]? = res[k]? := by
  intro n
  induction n with
  | zero =>
    intro i0 res templine out res' templine' out' c _ h
    simp only [rowsLoop] at h
    injection h with h1 h2 h3 h4
    subst h2
    exact ⟨rfl, fun _ _ => rfl⟩
  | succ n ih =>
    intro i0 res templine out res' templine' out' c hb h
    obtain ⟨filter, -, h | ⟨r2, t2, bytes, hr, -, hrec⟩⟩ := rowsLoop_succ_ret h
    · have := (rowLoop_stop _ _ _ _ h.1).2
      subst this
      exact ⟨rfl, fun _ _ => rfl⟩
    · have hmul : (i0 + (n + 1)) * (sll + 1) = (sll + 1) * i0 + 1 + sll + n * (sll + 1) := by
        ring
      have hmul2 : (i0 + 1 + n) * (sll + 1) = (sll + 1) * i0 + 1 + sll + n * (sll + 1) := by
        ring
      have hmul3 : (i0 + 1) * (sll + 1) = (sll + 1) * i0 + 1 + sll := by ring
      have hmul4 : i0 * (sll + 1) = (sll + 1) * i0 := by ring
      obtain ⟨hl1, hg1⟩ := rowLoop_next_frame sll 1 res r2 (by omega) hr
      obtain ⟨hl2, hg2⟩ := ih (i0 + 1) r2 t2 (out ++ bytes) res' templine' out' c
        (by omega) hrec
      refine ⟨by rw [hl2, hl1], fun k hk => ?_⟩
      rw [hg2 k (by omega), hg1 k (by omega)]

theorem emitRow_direct {sll width i trueDepth : Nat} {palette res templine : List Nat}
    (hb : (i + 1) * (sll + 1) < 4294967296) (hlen : (i + 1) * (sll + 1) ≤ res.length) :
    emitRow sll width i false palette trueDepth res templine =
      some (templine, rowSamples sll res i) := by
  have hmul : (i + 1) * (sll + 1) = i * (sll + 1) + 1 + sll := by ring
  unfold emitRow
  rw [filterIndex_eq (by omega)]
  simp only [Bool.false_eq_true, if_false, fwrite]
  rw [if_pos (by omega)]
  rfl

/-- A run of the outer loop over rows among which one carries a filter byte above 4 does not
return 0, when a row holds at least one sample. -/
theorem rowsLoop_code_bad {sll width depth : Nat} {indexed : Bool} {palette : List Nat}
    {trueDepth : Nat} (hsll : 0 < sll) :
    ∀ (n i0 : Nat) (res templine out res' templine' out' : List Nat) (c : Int),
      (i0 + n) * (sll + 1) < 4294967296 →
      rowsLoop sll width depth indexed palette trueDepth n i0 res templine out =
        Outcome.ret c res' templine' out' →
      (∃ i f, i0 ≤ i ∧ i < i0 + n ∧ res[i * (sll + 1)]? = some f ∧ 4 < f) → c = -1 := by
  intro n
  induction n with
  | zero =>
    intro i0 res templine out res' templine' out' c _ _ ⟨i, f, h1, h2, _⟩
    omega
  | succ n ih =>
    intro i0 res templine out res' templine' out' c hb h ⟨i, f, h1, h2, hf, hbad⟩
    have hmul : (i0 + (n + 1)) * (sll + 1) = (sll + 1) * i0 + 1 + sll + n * (sll + 1) := by
      ring
    have hmul2 : (i0 + 1 + n) * (sll + 1) = (sll + 1) * i0 + 1 + sll + n * (sll + 1) := by
      ring
    have hmul3 : (i0 + 1) * (sll + 1) = (sll + 1) * i0 + 1 + sll := by ring
    have hmul4 : i0 * (sll + 1) = (sll + 1) * i0 := by ring
    obtain ⟨filter, hfilter, hstop | ⟨r2, t2, bytes, hr, -, hrec⟩⟩ := rowsLoop_succ_ret h
    · exact hstop.2.1
    · rw [filterIndex_eq (by omega)] at hfilter
      have hgood : ¬ 4 < filter := by
        intro h4
        rw [rowLoop_of_bad_filter _ _ _ _ _ h4 hsll] at hr
        cases hr
      have hne : i ≠ i0 := by
        intro e
        subst e
        rw [hfilter] at hf
        injection hf with hf
        omega
      have hle : (i0 + 1) * (sll + 1) ≤ i * (sll + 1) := Nat.mul_le_mul_right _ (by omega)
      obtain ⟨-, hg1⟩ := rowLoop_next_frame sll 1 res r2 (by omega) hr
      refine ih (i0 + 1) r2 t2 (out ++ bytes) res' templine' out' c (by omega) hrec
        ⟨i, f, by omega, by omega, ?_, hbad⟩
      rw [hg1 _ (by omega), hf]

/-- A run of the outer loop over rows whose filter bytes are all at most 4 does not
return -1. -/
theorem rowsLoop_code_good {sll width depth : Nat} {indexed : Bool} {palette : List Nat}
    {trueDepth : Nat} :
    ∀ (n i0 : Nat) (res templine out res' templine' out' : List Nat) (c : Int),
      (i0 + n) * (sll + 1) < 4294967296 →
      rowsLoop sll width depth indexed palette trueDepth n i0 res templine out =
        Outcome.ret c res' templine' out' →
      (∀ i f, i0 ≤ i → i < i0 + n → res[i * (sll + 1)]? = some f → f ≤ 4) → c = 0 := by
  intro n
  induction n with
  | zero =>
    intro i0 res templine out res' templine' out' c _ h _
    simp only [rowsLoop] at h
    injection h with h1
    exact h1.symm
  | succ n ih =>
    intro i0 res templine out res' templine' out' c hb h hall
    have hmul : (i0 + (n + 1)) * (sll + 1) = (sll + 1) * i0 + 1 + sll + n * (sll + 1) := by
      ring
    have hmul2 : (i0 + 1 + n) * (sll + 1) = (sll + 1) * i0 + 1 + sll + n * (sll + 1) := by
      ring
    have hmul3 : (i0 + 1) * (sll + 1) = (sll + 1) * i0 + 1 + sll := by ring
    have hmul4 : i0 * (sll + 1) = (sll + 1) * i0 := by ring
    obtain ⟨filter, hfilter, hstop | ⟨r2, t2, bytes, hr, -, hrec⟩⟩ := rowsLoop_succ_ret h
    · rw [filterIndex_eq (by omega)] at hfilter
      have h4 := (rowLoop_stop _ _ _ _ hstop.1).1
      have := hall i0 filter (Nat.le_refl _) (by omega) hfilter
      omega
    · obtain ⟨-, hg1⟩ := rowLoop_next_frame sll 1 res r2 (by omega) hr
      refine ih (i0 + 1) r2 t2 (out ++ bytes) res' templine' out' c (by omega) hrec ?_
      intro i f h1 h2 hf
      have hle : (i0 + 1) * (sll + 1) ≤ i * (sll + 1) := Nat.mul_le_mul_right _ (by omega)
      rw [hg1 _ (by omega)] at hf
      exact hall i f (by omega) (by omega) hf

/-! ## Runs without an access outside the buffer -/

theorem addAt_ok {res : List Nat} {k : Nat} {x : Option Nat} (hk : k < res.length)
    (hx : x.isSome = true) : ∃ res', addAt res k x = Step.next res' := by
  obtain ⟨v, rfl⟩ := Option.isSome_iff_exists.mp hx
  exact ⟨_, addAt_some (List.getElem?_eq_getElem hk)⟩

theorem isSome_get {res : List Nat} {k : Nat} (hk : k < res.length) :
    res[k]?.isSome = true := by
  rw [List.getElem?_eq_getElem hk]
  rfl

/-- The loop body makes no access outside the buffer on a row that lies within the buffer,
except for the filter 4 on the first row at the offsets below `depth`. -/
theorem pixel_ok {sll depth i filter j : Nat} (res : List Nat)
    (hj1 : 1 ≤ j) (hj2 : j ≤ sll) (hb : (i + 1) * (sll + 1) < 4294967296)
    (hlen : (i + 1) * (sll + 1) ≤ res.length) (hf : filter ≤ 4)
    (hp : filter = 4 → i = 0 → depth ≤ j) :
    ∃ res', pixel sll depth i filter j res = Step.next res' := by
  have hmul3 : (i + 1) * (sll + 1) = (sll + 1) * i + 1 + sll := by ring
  have hn1 : (sll + 1) * i + j < 4294967296 := by omega
  unfold pixel
  simp only [number1_eq hn1]
  split_ifs with h1 h2 h3 h4 h5 h6 h7 h8
  · rw [u32sub_of_le (by omega) hn1]
    exact addAt_ok (by omega) (isSome_get (by omega))
  · have hle : (sll + 1) * (i - 1) ≤ (sll + 1) * i := Nat.mul_le_mul_left _ (by omega)
    rw [number2_eq h2.2 hn1]
    exact addAt_ok (by omega) (isSome_get (by omega))
  · have hle : (sll + 1) * (i - 1) ≤ (sll + 1) * i := Nat.mul_le_mul_left _ (by omega)
    rw [number2_eq h3.2 hn1, u32sub_of_le (by omega) hn1]
    refine addAt_ok (by omega) ?_
    rw [List.getElem?_eq_getElem (show (sll + 1) * (i - 1) + j < res.length by omega),
      List.getElem?_eq_getElem (show (sll + 1) * i + j - depth < res.length by omega)]
    rfl
  · have hle : (sll + 1) * (i - 1) ≤ (sll + 1) * i := Nat.mul_le_mul_left _ (by omega)
    rw [number2_eq h3.2 hn1]
    refine addAt_ok (by omega) ?_
    rw [List.getElem?_eq_getElem (show (sll + 1) * (i - 1) + j < res.length by omega)]
    rfl
  · have hle : (sll + 1) * (i - 1) ≤ (sll + 1) * i := Nat.mul_le_mul_left _ (by omega)
    rw [number2_eq h6.1 hn1, u32sub_of_le (by omega) hn1,
      u32sub_of_le (show depth ≤ (sll + 1) * (i - 1) + j by omega) (by omega)]
    refine addAt_ok (by omega) ?_
    rw [List.getElem?_eq_getElem (show (sll + 1) * (i - 1) + j < res.length by omega),
      List.getElem?_eq_getElem (show (sll + 1) * i + j - depth < res.length by omega),
      List.getElem?_eq_getElem (show (sll + 1) * (i - 1) + j - depth < res.length by omega)]
    rfl
  · have hle : (sll + 1) * (i - 1) ≤ (sll + 1) * i := Nat.mul_le_mul_left _ (by omega)
    rw [number2_eq h7 hn1]
    exact addAt_ok (by omega) (isSome_get (by omega))
  · have hi0 : i = 0 := by omega
    have := hp h5 hi0
    rw [u32sub_of_le (by omega) hn1]
    exact addAt_ok (by omega) (isSome_get (by omega))
  · omega
  · exact ⟨res, rfl⟩

theorem rowLoop_ok (sll depth i : Nat) {filter : Nat}
    (hb : (i + 1) * (sll + 1) < 4294967296) (hf : filter ≤ 4) :
    ∀ (n j : Nat) (res : List Nat), 1 ≤ j → j + n ≤ sll + 1 →
      (i + 1) * (sll + 1) ≤ res.length → (filter = 4 → i = 0 → depth ≤ j) →
      ∃ res', rowLoop sll depth i filter n j res = Step.next res' := by
  intro n
  induction n with
  | zero => intro j res _ _ _ _; exact ⟨res, rfl⟩
  | succ n ih =>
    intro j res hj1 hj2 hlen hp
    obtain ⟨m, hm⟩ := pixel_ok res hj1 (by omega) hb hlen hf hp
    rw [rowLoop_succ, hm]
    exact ih (j + 1) m (by omega) (by omega) (by rw [pixel_next_length hm]; exact hlen)
      (fun h1 h2 => by have := hp h1 h2; omega)

/-- For a non-indexed image the outer loop returns, unless the first row carries the filter 4
and `depth` exceeds 1. -/
theorem rowsLoop_ok {sll width depth trueDepth : Nat} {palette : List Nat} :
    ∀ (n i0 : Nat) (res templine out : List Nat),
      (i0 + n) * (sll + 1) < 4294967296 → (i0 + n) * (sll + 1) ≤ res.length →
      (i0 = 0 → res[0]? = some 4 → depth ≤ 1) →
      ∃ c res' templine' out',
        rowsLoop sll width depth false palette trueDepth n i0 res templine out =
          Outcome.ret c res' templine' out' := by
  intro n
  induction n with
  | zero => intro i0 res templine out _ _ _; exact ⟨0, res, templine, out, rfl⟩
  | succ n ih =>
    intro i0 res templine out hb hlen hp
    have hmul : (i0 + (n + 1)) * (sll + 1) = (i0 + 1) * (sll + 1) + n * (sll + 1) := by ring
    have hmul2 : (i0 + 1 + n) * (sll + 1) = (i0 + 1) * (sll + 1) + n * (sll + 1) := by ring
    have hmul3 : (i0 + 1) * (sll + 1) = i0 * (sll + 1) + 1 + sll := by ring
    have hmul4 : i0 * (sll + 1) = (sll + 1) * i0 := by ring
    have hin : i0 * (sll + 1) < res.length := by omega
    obtain ⟨filter, hfilter⟩ : ∃ filter, res[i0 * (sll + 1)]? = some filter :=
      ⟨_, List.getElem?_eq_getElem hin⟩
    rw [rowsLoop_succ, filterIndex_eq (by omega), hfilter]
    simp only
    have hnext : ∀ r2, r2.length = res.length →
        ∃ c res' templine' out',
          (match emitRow sll width i0 false palette trueDepth r2 templine with
            | none => Outcome.fault
            | some (templine', bytes) =>
              rowsLoop sll width depth false palette trueDepth n (i0 + 1) r2 templine'
                (out ++ bytes)) = Outcome.ret c res' templine' out' := by
      intro r2 hl
      rw [emitRow_direct (by omega) (by omega)]
      exact ih (i0 + 1) r2 templine _ (by omega) (by omega) (fun h => by omega)
    rcases Nat.lt_or_ge 4 filter with hbad | hgood
    · rcases Nat.eq_zero_or_pos sll with h0 | hpos
      · subst h0
        simp only [rowLoop]
        exact hnext res rfl
      · rw [rowLoop_of_bad_filter _ _ _ _ _ hbad hpos]
        exact ⟨-1, res, templine, out, rfl⟩
    · obtain ⟨r2, hr2⟩ := rowLoop_ok sll depth i0 (by omega) hgood
        sll 1 res (Nat.le_refl _) (by omega) (by omega) (fun h1 h2 => by
          subst h2
          subst h1
          simp only [Nat.zero_mul] at hfilter
          exact hp rfl hfilter)
      rw [hr2]
      simp only
      exact hnext r2 (rowLoop_next_frame sll 1 res r2 (by omega) hr2).1

theorem expandRow_cons (palette : List Nat) (t s : Nat) (l : List Nat) :
    expandRow palette t (s :: l) = paletteEntry palette t s ++ expandRow palette t l := by
  simp [expandRow]

/-- The scratch row after `n` turns of the palette loop. -/
theorem paletteLoop_some {palette res : List Nat} {trueDepth : Nat} :
    ∀ (n src dst : Nat) (templine templine' : List Nat),
      paletteLoop palette trueDepth res n src dst templine = some templine' →
      (expandRow palette trueDepth ((res.drop src).take n)).length = n * trueDepth ∧
      dst + n * trueDepth ≤ templine.length + (if n = 0 then dst else 0) ∧
      templine' = templine.take dst ++
        (expandRow palette trueDepth ((res.drop src).take n) ++
          templine.drop (dst + n * trueDepth)) := by
  intro n
  induction n with
  | zero =>
    intro src dst templine templine' h
    simp only [paletteLoop] at h
    injection h with h
    subst h
    simp [expandRow]
  | succ n ih =>
    intro src dst templine templine' h
    simp only [paletteLoop] at h
    split at h
    · cases h
    · rename_i index hindex
      split at h
      · cases h
      · rename_i t1 hcopy
        unfold memcpy at hcopy
        split_ifs at hcopy with hin
        injection hcopy with hcopy
        obtain ⟨hlenE, hroom, hrest⟩ := ih (src + 1) (dst + trueDepth) t1 templine' h
        obtain ⟨hsrc, hget⟩ := List.getElem?_eq_some.mp hindex
        have hdrop : (res.drop src).take (n + 1) = index :: (res.drop (src + 1)).take n := by
          rw [List.drop_eq_getElem_cons hsrc, hget, List.take_succ_cons]
        have hentry : (paletteEntry palette trueDepth index).length = trueDepth := by
          simp only [paletteEntry, List.length_take, List.length_drop]
          omega
        have hentry2 : (palette.drop (index * 3)).take trueDepth =
            paletteEntry palette trueDepth index := by
          rw [paletteEntry, Nat.mul_comm]
        have hmul : (n + 1) * trueDepth = trueDepth + n * trueDepth := by ring
        have ht1len : t1.length = templine.length := by
          rw [← hcopy]
          simp only [List.length_append, List.length_take, List.length_drop]
          omega
        have htake : t1.take (dst + trueDepth) =
            templine.take dst ++ paletteEntry palette trueDepth index := by
          rw [← hcopy, hentry2, ← List.append_assoc]
          apply List.take_left'
          simp only [List.length_append, List.length_take, hentry]
          omega
        have hdrop2 : t1.drop (dst + trueDepth + n * trueDepth) =
            templine.drop (dst + (n + 1) * trueDepth) := by
          rw [← hcopy, hentry2, ← List.append_assoc]
          have hl : (templine.take dst ++ paletteEntry palette trueDepth index).length =
              dst + trueDepth := by
            simp only [List.length_append, List.length_take, hentry]
            omega
          rw [← hl, List.drop_append, List.drop_drop, hl, hmul]
          congr 1
          omega
        refine ⟨?_, ?_, ?_⟩
        · rw [hdrop, expandRow_cons, List.length_append, hentry, hlenE, hmul]
        · simp only [Nat.succ_ne_zero, if_false, Nat.add_zero]
          split_ifs at hroom with hn
          · subst hn
            omega
          · omega
        · rw [hrest, htake, hdrop2, hdrop, expandRow_cons]
          simp only [List.append_assoc]

/-- The bytes that row `i` contributes to the output, read off the final buffer. -/
theorem rowSamples_congr {stride i : Nat} {a b : List Nat}
    (h : ∀ k, k < (i + 1) * (stride + 1) → a[k]? = b[k]?) (n : Nat) (hn : n ≤ stride) :
    (a.drop (i * (stride + 1) + 1)).take n = (b.drop (i * (stride + 1) + 1)).take n := by
  have hmul : (i + 1) * (stride + 1) = i * (stride + 1) + 1 + stride := by ring
  apply List.ext_getElem?
  intro k
  rw [List.getElem?_take, List.getElem?_take, List.getElem?_drop, List.getElem?_drop]
  split_ifs with hk
  · exact h _ (by omega)
  · rfl

theorem emitRow_some {sll width i trueDepth : Nat} {indexed : Bool}
    {palette res templine templine' bytes : List Nat}
    (hb : (i + 1) * (sll + 1) < 4294967296)
    (hwt : indexed = true → width * trueDepth < 4294967296)
    (h : emitRow sll width i indexed palette trueDepth res templine = some (templine', bytes)) :
    bytes = rowOutput sll width indexed palette trueDepth res i ∧
      bytes.length = if indexed then width * trueDepth else sll := by
  have hmul : (i + 1) * (sll + 1) = i * (sll + 1) + 1 + sll := by ring
  unfold emitRow at h
  rw [filterIndex_eq (by omega)] at h
  cases indexed with
  | true =>
    simp only [if_true] at h
    rw [u32_of_lt (show i * (sll + 1) + 1 < 4294967296 by omega),
      u32_of_lt (hwt rfl)] at h
    split at h
    · cases h
    · rename_i t1 hloop
      obtain ⟨hlenE, -, ht1⟩ := paletteLoop_some _ _ _ _ _ hloop
      unfold fwrite at h
      split at h
      · cases h
      · rename_i b hb2
        split_ifs at hb2
        injection hb2 with hb2
        injection h with h
        injection h with h1 h2
        subst h2
        simp only [List.take_zero, List.nil_append, List.drop_zero] at ht1 hb2
        rw [ht1, List.take_left' hlenE] at hb2
        simp only [rowOutput, if_true]
        exact ⟨hb2.symm, by rw [← hb2, hlenE]⟩
  | false =>
    simp only [Bool.false_eq_true, if_false] at h
    unfold fwrite at h
    split at h
    · cases h
    · rename_i b hb2
      split_ifs at hb2 with hin
      injection hb2 with hb2
      injection h with h
      injection h with h1 h2
      subst h2
      simp only [rowOutput, Bool.false_eq_true, if_false, rowSamples]
      refine ⟨hb2.symm, ?_⟩
      rw [← hb2, List.length_take, List.length_drop]
      omega

theorem rowOutput_congr {sll width i trueDepth : Nat} {indexed : Bool}
    {palette a b : List Nat} (hw : indexed = true → width ≤ sll)
    (h : ∀ k, k < (i + 1) * (sll + 1) → a[k]? = b[k]?) :
    rowOutput sll width indexed palette trueDepth a i =
      rowOutput sll width indexed palette trueDepth b i := by
  unfold rowOutput rowSamples
  cases indexed with
  | true =>
    simp only [if_true]
    rw [rowSamples_congr h width (hw rfl)]
  | false =>
    simp only [Bool.false_eq_true, if_false]
    exact rowSamples_congr h sll (Nat.le_refl _)

/-- The output of a run of the outer loop that returns 0: row after row, the bytes of
`rowOutput` on the final buffer, each row of the same length. -/
theorem rowsLoop_out {sll width depth trueDepth : Nat} {indexed : Bool} {palette : List Nat}
    (hw : indexed = true → width ≤ sll)
    (hwt : indexed = true → width * trueDepth < 4294967296) :
    ∀ (n i0 : Nat) (res templine out res' templine' out' : List Nat),
      (i0 + n) * (sll + 1) < 4294967296 →
      rowsLoop sll width depth indexed palette trueDepth n i0 res templine out =
        Outcome.ret 0 res' templine' out' →
      out' = out ++
        ((List.range' i0 n).map (rowOutput sll width indexed palette trueDepth res')).flatten ∧
      ∀ i, i0 ≤ i → i < i0 + n →
        (rowOutput sll width indexed palette trueDepth res' i).length =
          if indexed then width * trueDepth else sll := by
  intro n
  induction n with
  | zero =>
    intro i0 res templine out res' templine' out' _ h
    simp only [rowsLoop] at h
    injection h with h1 h2 h3 h4
    subst h4
    exact ⟨by simp, fun i h1 h2 => by omega⟩
  | succ n ih =>
    intro i0 res templine out res' templine' out' hb h
    have hmul : (i0 + (n + 1)) * (sll + 1) = (i0 + 1) * (sll + 1) + n * (sll + 1) := by ring
    have hmul2 : (i0 + 1 + n) * (sll + 1) = (i0 + 1) * (sll + 1) + n * (sll + 1) := by ring
    obtain ⟨filter, hf, hstop | ⟨r2, t2, bytes, hr, hemit, hrec⟩⟩ := rowsLoop_succ_ret h
    · exact absurd hstop.2.1 (by decide)
    · obtain ⟨hbytes, hbl⟩ := emitRow_some (by omega) hwt hemit
      have hrest := rowsLoop_frame n (i0 + 1) r2 t2 (out ++ bytes) res' templine' out' 0
        (by omega) hrec
      obtain ⟨hout, hlens⟩ := ih (i0 + 1) r2 t2 (out ++ bytes) res' templine' out'
        (by omega) hrec
      have hsame : rowOutput sll width indexed palette trueDepth r2 i0 =
          rowOutput sll width indexed palette trueDepth res' i0 :=
        rowOutput_congr hw (fun k hk => (hrest.2 k (Or.inl (by omega))).symm)
      constructor
      · rw [hout, hbytes, hsame]
        simp [List.range'_succ]
      · intro i h1 h2
        by_cases hi : i = i0
        · subst hi
          rw [← hsame, ← hbytes, hbl]
        · exact hlens i (by omega) (by omega)

theorem paletteLoop_ok (palette res : List Nat) (trueDepth : Nat) :
    ∀ (n src dst : Nat) (templine : List Nat),
      (∀ k, k < n → ∃ s, res[src + k]? = some s ∧ s * 3 + trueDepth ≤ palette.length) →
      dst + n * trueDepth ≤ templine.length →
      ∃ templine', paletteLoop palette trueDepth res n src dst templine = some templine' ∧
        templine'.length = templine.length := by
  intro n
  induction n with
  | zero => intro src dst templine _ _; exact ⟨templine, rfl, rfl⟩
  | succ n ih =>
    intro src dst templine hs hroom
    have hmul : (n + 1) * trueDepth = trueDepth + n * trueDepth := by ring
    obtain ⟨s, hs0, hpal⟩ := hs 0 (by omega)
    simp only [Nat.add_zero] at hs0
    simp only [paletteLoop, hs0, memcpy]
    rw [if_pos ⟨hpal, by omega⟩]
    simp only
    have hlen : (templine.take dst ++ ((palette.drop (s * 3)).take trueDepth ++
        templine.drop (dst + trueDepth))).length = templine.length := by
      simp only [List.length_append, List.length_take, List.length_drop]
      omega
    obtain ⟨t', ht', hl'⟩ := ih (src + 1) (dst + trueDepth) _
      (fun k hk => by
        obtain ⟨s', h1, h2⟩ := hs (k + 1) (by omega)
        exact ⟨s', by rw [← h1]; congr 1; omega, h2⟩)
      (by rw [hlen]; omega)
    exact ⟨t', ht', by rw [hl', hlen]⟩

theorem emitRow_indexed_ok {width trueDepth : Nat} (sll i : Nat)
    (palette res templine : List Nat)
    (hb : (i + 1) * (sll + 1) < 4294967296) (hwt : width * trueDepth < 4294967296)
    (hroom : width * trueDepth ≤ templine.length)
    (hs : ∀ k, k < width →
      ∃ s, res[i * (sll + 1) + 1 + k]? = some s ∧ s * 3 + trueDepth ≤ palette.length) :
    ∃ templine' bytes,
      emitRow sll width i true palette trueDepth res templine = some (templine', bytes) ∧
      templine'.length = templine.length := by
  have hmul : (i + 1) * (sll + 1) = i * (sll + 1) + 1 + sll := by ring
  obtain ⟨t', ht', hl'⟩ := paletteLoop_ok palette res trueDepth width
    (i * (sll + 1) + 1) 0 templine hs (by omega)
  unfold emitRow
  simp only [if_true]
  rw [filterIndex_eq (by omega), u32_of_lt (show i * (sll + 1) + 1 < 4294967296 by omega),
    u32_of_lt hwt, ht']
  simp only [fwrite]
  rw [if_pos (by omega)]
  exact ⟨t', _, rfl, hl'⟩

/-- An indexed run reconstructs the buffer as the non-indexed run does, and returns what the
non-indexed run returns when every sample of the buffer the latter ends with lies within the
palette. -/
theorem rowsLoop_indexed_ok {sll width depth trueDepth : Nat} {palette : List Nat} {c : Int}
    (hw : width ≤ sll) (hwt : width * trueDepth < 4294967296) :
    ∀ (n i0 : Nat) (res tA outA res' tA' outA' templine out : List Nat),
      (i0 + n) * (sll + 1) < 4294967296 →
      rowsLoop sll width depth false palette trueDepth n i0 res tA outA =
        Outcome.ret c res' tA' outA' →
      (∀ i k, i0 ≤ i → i < i0 + n → k < width →
        ∃ s, res'[i * (sll + 1) + 1 + k]? = some s ∧ s * 3 + trueDepth ≤ palette.length) →
      width * trueDepth ≤ templine.length →
      ∃ templine' out',
        rowsLoop sll width depth true palette trueDepth n i0 res templine out =
          Outcome.ret c res' templine' out' := by
  intro n
  induction n with
  | zero =>
    intro i0 res tA outA res' tA' outA' templine out _ h _ _
    simp only [rowsLoop] at h
    injection h with h1 h2 h3 h4
    subst h2
    subst h1
    exact ⟨templine, out, rfl⟩
  | succ n ih =>
    intro i0 res tA outA res' tA' outA' templine out hb h hs hroom
    have hmul : (i0 + (n + 1)) * (sll + 1) = (i0 + 1) * (sll + 1) + n * (sll + 1) := by ring
    have hmul2 : (i0 + 1 + n) * (sll + 1) = (i0 + 1) * (sll + 1) + n * (sll + 1) := by ring
    have hmul3 : (i0 + 1) * (sll + 1) = i0 * (sll + 1) + 1 + sll := by ring
    obtain ⟨filter, hf, hstop | ⟨r2, t2, bytes, hr, hemit, hrec⟩⟩ := rowsLoop_succ_ret h
    · refine ⟨templine, out, ?_⟩
      rw [rowsLoop_succ, hf]
      simp only [hstop.1, hstop.2.1]
    · have hrest := rowsLoop_frame n (i0 + 1) r2 t2 (outA ++ bytes) res' tA' outA' c
        (by omega) hrec
      obtain ⟨t3, b3, hemit3, hl3⟩ := emitRow_indexed_ok sll i0 palette r2 templine
        (by omega) hwt hroom
        (fun k hk => by
          obtain ⟨s, h1, h2⟩ := hs i0 k (Nat.le_refl _) (by omega) hk
          exact ⟨s, by rw [← hrest.2 _ (Or.inl (by omega)), h1], h2⟩)
      obtain ⟨t', o', hfin⟩ := ih (i0 + 1) r2 t2 (outA ++ bytes) res' tA' outA' t3
        (out ++ b3) (by omega) hrec
        (fun i k h1 h2 hk => hs i k (by omega) (by omega) hk) (by rw [hl3]; exact hroom)
      refine ⟨t', o', ?_⟩
      rw [rowsLoop_succ, hf]
      simp only [hr, hemit3]
      exact hfin

/-- An indexed image is reconstructed as the same buffer taken as a non-indexed image, and
`filterTypes` returns the same value, when the palette loop stays inside the palette and the
scratch row on the buffer the non-indexed run ends with. -/
theorem filterTypes_indexed_of_direct {res palette templine out tA outA res' tA' outA' : List Nat}
    {height width depth trueDepth : Nat} {c : Int} (hd : 0 < depth)
    (hlen : res.length = height * (width * depth + 1))
    (hsize : height * (width * depth + 1) < 4294967296)
    (hrun : filterTypes res height width depth false palette tA trueDepth outA =
      Outcome.ret c res' tA' outA')
    (hfit : expansionFits (width * depth) height width trueDepth palette templine res') :
    ∃ templine' out',
      filterTypes res height width depth true palette templine trueDepth out =
        Outcome.ret c res' templine' out' := by
  rcases Nat.eq_zero_or_pos height with h0 | hpos
  · subst h0
    simp only [filterTypes, rowsLoop] at hrun
    injection hrun with h1 h2 h3 h4
    subst h2
    subst h1
    exact ⟨templine, out, rfl⟩
  · have hsll : u32 (depth * width) = width * depth := by
      rw [Nat.mul_comm depth width]
      have : width * depth + 1 ≤ height * (width * depth + 1) :=
        Nat.le_mul_of_pos_left _ hpos
      exact u32_of_lt (by omega)
    have hw : width ≤ width * depth := Nat.le_mul_of_pos_right _ hd
    unfold filterTypes at hrun ⊢
    simp only [hsll] at hrun ⊢
    have hl' := (rowsLoop_frame height 0 res tA outA res' tA' outA' c
      (by simpa using hsize) hrun).1
    obtain ⟨hwt, hroom, hs⟩ := hfit
    refine rowsLoop_indexed_ok hw hwt height 0 res tA outA res' tA' outA'
      templine out (by simpa using hsize) hrun ?_ hroom
    intro i k _ hi hk
    have hi' : i < height := by omega
    have hrow : (i + 1) * (width * depth + 1) ≤ height * (width * depth + 1) :=
      Nat.mul_le_mul_right _ (by omega)
    have hmul : (i + 1) * (width * depth + 1) =
        i * (width * depth + 1) + 1 + width * depth := by ring
    have hin : i * (width * depth + 1) + 1 + k < res'.length := by omega
    refine ⟨res'[i * (width * depth + 1) + 1 + k], List.getElem?_eq_getElem hin, ?_⟩
    have := hs i hi' k hk
    rw [List.getD_eq_getElem?_getD, List.getElem?_eq_getElem hin] at this
    exact this

/-- C7 (amended). For every width of at least 1, every height, `depth` 1 or 3 and every
inflated buffer of `height * (width * depth + 1)` bytes, fewer than `2 ^ 32`: a run of
`filterTypes` that returns, returns -1 if some scanline carries a filter byte outside 0..4 and
0 if every filter byte is in 0..4; and the run does return, with these values, unless `depth`
is 3 and the first scanline carries the filter byte 4, for an indexed image when the palette
loop stays inside the palette and the scratch row on the reconstructed buffer. -/
theorem filterTypes_code (res palette templine out : List Nat)
    (height width depth trueDepth : Nat) (indexed : Bool)
    (hw : 0 < width) (hd : depth = 1 ∨ depth = 3)
    (hlen : res.length = height * (width * depth + 1))
    (hsize : height * (width * depth + 1) < 4294967296) :
    (∀ c res' templine' out',
      filterTypes res height width depth indexed palette templine trueDepth out =
        Outcome.ret c res' templine' out' →
      ((∃ i f, i < height ∧ res[i * (width * depth + 1)]? = some f ∧ 4 < f) → c = -1) ∧
      ((∀ i f, i < height → res[i * (width * depth + 1)]? = some f → f ≤ 4) → c = 0)) ∧
    ((depth = 3 → res[0]? ≠ some 4) →
      (indexed = true → ∀ c res' tA' outA',
        filterTypes res height width depth false palette templine trueDepth out =
          Outcome.ret c res' tA' outA' →
        expansionFits (width * depth) height width trueDepth palette templine res') →
      ((∃ i f, i < height ∧ res[i * (width * depth + 1)]? = some f ∧ 4 < f) →
        ∃ res' templine' out',
          filterTypes res height width depth indexed palette templine trueDepth out =
            Outcome.ret (-1) res' templine' out') ∧
      ((∀ i f, i < height → res[i * (width * depth + 1)]? = some f → f ≤ 4) →
        ∃ res' templine' out',
          filterTypes res height width depth indexed palette templine trueDepth out =
            Outcome.ret 0 res' templine' out')) := by
  have hpart : ∀ (idx : Bool) (c : Int) (res' templine' out' : List Nat),
      filterTypes res height width depth idx palette templine trueDepth out =
        Outcome.ret c res' templine' out' →
      ((∃ i f, i < height ∧ res[i * (width * depth + 1)]? = some f ∧ 4 < f) → c = -1) ∧
      ((∀ i f, i < height → res[i * (width * depth + 1)]? = some f → f ≤ 4) → c = 0) := by
    intro idx c res' templine' out' h
    rcases Nat.eq_zero_or_pos height with h0 | hpos
    · subst h0
      simp only [filterTypes, rowsLoop] at h
      injection h with h1
      exact ⟨fun ⟨i, f, hi, _⟩ => by omega, fun _ => h1.symm⟩
    · have hsll : u32 (depth * width) = width * depth := by
        rw [Nat.mul_comm depth width]
        have : width * depth + 1 ≤ height * (width * depth + 1) :=
          Nat.le_mul_of_pos_left _ hpos
        exact u32_of_lt (by omega)
      have hpos2 : 0 < width * depth := Nat.mul_pos hw (by omega)
      unfold filterTypes at h
      simp only [hsll] at h
      constructor
      · rintro ⟨i, f, hi, hf, hbad⟩
        exact rowsLoop_code_bad hpos2 height 0 res templine out res' templine' out' c
          (by simpa using hsize) h ⟨i, f, Nat.zero_le _, by omega, hf, hbad⟩
      · intro hall
        exact rowsLoop_code_good height 0 res templine out res' templine' out' c
          (by simpa using hsize) h (fun i f _ h2 hf => hall i f (by omega) hf)
  refine ⟨hpart indexed, fun hp hfit => ?_⟩
  rcases Nat.eq_zero_or_pos height with h0 | hpos
  · subst h0
    exact ⟨fun ⟨i, f, hi, _⟩ => by omega, fun _ => ⟨res, templine, out, rfl⟩⟩
  have hsll : u32 (depth * width) = width * depth := by
    rw [Nat.mul_comm depth width]
    have : width * depth + 1 ≤ height * (width * depth + 1) :=
      Nat.le_mul_of_pos_left _ hpos
    exact u32_of_lt (by omega)
  obtain ⟨c, res', tA', outA', hrun⟩ :
      ∃ c res' templine' out',
        filterTypes res height width depth false palette templine trueDepth out =
          Outcome.ret c res' templine' out' := by
    unfold filterTypes
    simp only [hsll]
    exact rowsLoop_ok height 0 res templine out (by simpa using hsize)
      (by simpa using hlen.ge) (fun _ h4 => by
        rcases hd with h1 | h3
        · omega
        · exact absurd h4 (hp h3))
  obtain ⟨hbad, hgood⟩ := hpart false c res' tA' outA' hrun
  have hrunI : ∃ templine' out',
      filterTypes res height width depth indexed palette templine trueDepth out =
        Outcome.ret c res' templine' out' := by
    cases indexed with
    | false => exact ⟨tA', outA', hrun⟩
    | true =>
      exact filterTypes_indexed_of_direct (by omega) hlen hsize hrun
        (hfit rfl c res' tA' outA' hrun)
  obtain ⟨t', o', hI⟩ := hrunI
  constructor
  · intro h
    rw [hbad h] at hI
    exact ⟨res', t', o', hI⟩
  · intro h
    rw [hgood h] at hI
    exact ⟨res', t', o', hI⟩

/-- C7 (witness). A 1x1 greyscale image whose scanline carries the filter byte 5:
`filterTypes` returns -1. -/
theorem filterTypes_code_witness :
    (0 < 1 ∧ (1 = 1 ∨ 1 = 3) ∧ [5, 1].length = 1 * (1 * 1 + 1) ∧
      1 * (1 * 1 + 1) < 4294967296) ∧
      ∃ res' templine' out',
        filterTypes [5, 1] 1 1 1 false [] [] 1 [] = Outcome.ret (-1) res' templine' out' :=
  ⟨⟨by decide, by decide, by decide, by decide⟩,
    ((filterTypes_code [5, 1] [] [] [] 1 1 1 1 false (by decide) (by decide) (by decide)
      (by decide)).2 (by decide) (fun h => absurd h (by decide))).1
      ⟨0, 5, by decide, by decide, by decide⟩⟩

/-! ## The filters Average and Paeth on the first row -/

/-- C2 (failing input). A 2x1 greyscale image whose only scanline carries the filter byte 3
(Average), with the samples 10 and 20: `filterTypes` leaves the row as it is, so the sample at
offset 2 stays 20, whereas the input byte plus the floor average of the missing upper sample
(0) and of the left sample (10) is 25. -/
theorem filterTypes_average_first_row :
    filterTypes [3, 10, 20] 1 2 1 false [] [] 1 [] = Outcome.ret 0 [3, 10, 20] [] [10, 20] ∧
      (20 + (0 + 10) / 2) % 256 = 25 := by
  decide

/-- C3 (failing input). A 1x1 greyscale image whose only scanline carries the filter byte 4
(Paeth), with the sample 10: `filterTypes` adds the filter byte itself, read as the left
neighbour, and produces 14, whereas the input byte plus the Paeth predictor of three missing
neighbours is 10; with `depth` 3 the same row makes `filterTypes` read outside the buffer. -/
theorem filterTypes_paeth_first_row :
    filterTypes [4, 10] 1 1 1 false [] [] 1 [] = Outcome.ret 0 [4, 14] [] [14] ∧
      (10 + paethPredictor 0 0 0) % 256 = 10 ∧
      filterTypes [4, 10, 11, 12] 1 1 3 false [] [] 3 [] = Outcome.fault := by
  refine ⟨by decide, ?_, by decide⟩
  simp [paethPredictor, intAbs, toUChar]

/-! ## Header validation -/

theorem isPNGSupported_iff (hdr : PNG_Header) :
    isPNGSupported hdr = true ↔
      hdr.interlaced = 0 ∧ hdr.depth = 8 ∧
        (hdr.colType = 0 ∨ hdr.colType = 2 ∨ hdr.colType = 3) := by
  unfold isPNGSupported
  by_cases a : hdr.interlaced = 0 <;> by_cases b : hdr.depth = 8 <;>
    by_cases c0 : hdr.colType = 0 <;> by_cases c2 : hdr.colType = 2 <;>
    by_cases c3 : hdr.colType = 3 <;> simp [a, b, c0, c2, c3]

/-- C20 (failing input). A 2x1 truecolour image (`depth` 3) whose only scanline carries the
filter byte 4 (Paeth), in a buffer of exactly 7 bytes: at the first sample the loop body reads
`res[number1 - depth]` with `number1 = 1`, the index wraps around to 4294967294, outside the
buffer, and the run of `filterTypes` ends with an access outside the buffer. -/
theorem filterTypes_paeth_out_of_bounds :
    [4, 1, 2, 3, 4, 5, 6].length = 1 * (2 * 3 + 1) ∧
      u32sub (u32 (u32 (u32 (2 * 3 + 1) * 0) + 1)) 3 = 4294967294 ∧
      pixel (2 * 3) 3 0 4 1 [4, 1, 2, 3, 4, 5, 6] = Step.fault ∧
      filterTypes [4, 1, 2, 3, 4, 5, 6] 1 2 3 false [] [] 3 [] = Outcome.fault := by
  decide

/-! ## The number of bytes written -/

theorem flatten_length_const {α : Type} (c : Nat) :
    ∀ (L : List (List α)), (∀ l ∈ L, l.length = c) → L.flatten.length = L.length * c := by
  intro L
  induction L with
  | nil => intro _; simp
  | cons l L ih =>
    intro hall
    rw [List.flatten_cons, List.length_append, hall l (List.mem_cons_self _ _),
      ih (fun l' hl' => hall l' (List.mem_cons_of_mem _ hl')), List.length_cons]
    ring

/-- The output of a run of `filterTypes` that returns 0: the rows of `rowOutput` on the final
buffer, from top to bottom, each of the same length. -/
theorem filterTypes_out {res palette templine out res' templine' out' : List Nat}
    {height width depth trueDepth : Nat} {indexed : Bool}
    (hw : indexed = true → width ≤ width * depth)
    (hsize : height * (width * depth + 1) < 4294967296)
    (hwt : indexed = true → width * trueDepth < 4294967296)
    (hrun : filterTypes res height width depth indexed palette templine trueDepth out =
      Outcome.ret 0 res' templine' out') :
    out' = out ++ ((List.range height).map
      (rowOutput (width * depth) width indexed palette trueDepth res')).flatten ∧
    (∀ i, i < height →
      (rowOutput (width * depth) width indexed palette trueDepth res' i).length =
        if indexed then width * trueDepth else width * depth) := by
  rcases Nat.eq_zero_or_pos height with h0 | hpos
  · subst h0
    simp only [filterTypes, rowsLoop] at hrun
    injection hrun with h1 h2 h3 h4
    subst h4
    exact ⟨by simp, fun i hi => by omega⟩
  · have hsll : u32 (depth * width) = width * depth := by
      rw [Nat.mul_comm depth width]
      have : width * depth + 1 ≤ height * (width * depth + 1) :=
        Nat.le_mul_of_pos_left _ hpos
      exact u32_of_lt (by omega)
    unfold filterTypes at hrun
    simp only [hsll] at hrun
    obtain ⟨hout, hlens⟩ := rowsLoop_out hw hwt height 0 res templine out res' templine' out'
      (by simpa using hsize) hrun
    rw [← List.range_eq_range'] at hout
    exact ⟨hout, fun i hi => hlens i (Nat.zero_le _) (by omega)⟩

/-- The palette loop writes outside a scratch row that is shorter than the expansion of the
samples still to come. -/
theorem paletteLoop_short (palette res : List Nat) (trueDepth : Nat) :
    ∀ (n src dst : Nat) (templine : List Nat),
      templine.length < dst + (n + 1) * trueDepth →
      paletteLoop palette trueDepth res (n + 1) src dst templine = none := by
  intro n
  induction n with
  | zero =>
    intro src dst templine hlen
    simp only [paletteLoop]
    cases res[src]? with
    | none => rfl
    | some index =>
      simp only [memcpy]
      rw [if_neg (by omega)]
  | succ n ih =>
    intro src dst templine hlen
    have hmul : (n + 1 + 1) * trueDepth = trueDepth + (n + 1) * trueDepth := by ring
    rw [paletteLoop]
    cases res[src]? with
    | none => rfl
    | some index =>
      simp only [memcpy]
      split_ifs with hc
      · simp only
        refine ih (src + 1) (dst + trueDepth) _ ?_
        simp only [List.length_append, List.length_take, List.length_drop]
        omega
      · rfl

/-- With a scratch row shorter than `width * trueDepth` bytes no row of an indexed image is
emitted. -/
theorem emitRow_short {width trueDepth : Nat} (sll i : Nat) (palette res templine : List Nat)
    (hw : 0 < width) (hshort : templine.length < width * trueDepth) :
    emitRow sll width i true palette trueDepth res templine = none := by
  obtain ⟨n, rfl⟩ : ∃ n, width = n + 1 := ⟨width - 1, by omega⟩
  unfold emitRow
  simp only [if_true]
  rw [paletteLoop_short palette res trueDepth n _ 0 templine (by omega)]

/-- With a scratch row shorter than `width * trueDepth` bytes a run of `filterTypes` on an
indexed image of at least one row does not return 0. -/
theorem filterTypes_short {res palette templine out res' templine' out' : List Nat}
    {height width depth trueDepth : Nat} (hh : 0 < height) (hw : 0 < width)
    (hshort : templine.length < width * trueDepth)
    (hrun : filterTypes res height width depth true palette templine trueDepth out =
      Outcome.ret 0 res' templine' out') : False := by
  obtain ⟨n, rfl⟩ : ∃ n, height = n + 1 := ⟨height - 1, by omega⟩
  unfold filterTypes at hrun
  obtain ⟨filter, -, hstop | ⟨r2, t2, bytes, -, hemit, -⟩⟩ := rowsLoop_succ_ret hrun
  · exact absurd hstop.2.1 (by decide)
  · rw [emitRow_short _ _ _ _ _ hw hshort] at hemit
    cases hemit

/-- C19. For `depth` 1 or 3 and an image of fewer than `2 ^ 32` buffer bytes, with the scratch
row that `main` allocates for an indexed image (`malloc (hdr.width * trueDepth)`, the product
taken in `unsigned int`): a run of `filterTypes` that returns 0 has appended to the output the
`height` rows from top to bottom with nothing between them, each of `width * depth` bytes when
the image is not indexed and of `width * trueDepth` bytes when it is, that is
`width * height * trueDepth` bytes in all (with `depth = trueDepth` when the image is not
indexed). -/
theorem filterTypes_emits (res palette templine out res' templine' out' : List Nat)
    (height width depth trueDepth : Nat) (indexed : Bool)
    (hd : depth = 1 ∨ depth = 3)
    (hsize : height * (width * depth + 1) < 4294967296)
    (htl : indexed = true → templine.length = u32 (width * trueDepth))
    (hrun : filterTypes res height width depth indexed palette templine trueDepth out =
      Outcome.ret 0 res' templine' out') :
    out' = out ++ ((List.range height).map
      (rowOutput (width * depth) width indexed palette trueDepth res')).flatten ∧
    (∀ i, i < height →
      (rowOutput (width * depth) width indexed palette trueDepth res' i).length =
        if indexed then width * trueDepth else width * depth) ∧
    out'.length = out.length + height * (if indexed then width * trueDepth else width * depth) ∧
    ((indexed = true ∨ depth = trueDepth) →
      out'.length = out.length + width * height * trueDepth) := by
  rcases Nat.eq_zero_or_pos height with h0 | hpos
  · subst h0
    simp only [filterTypes, rowsLoop] at hrun
    injection hrun with h1 h2 h3 h4
    subst h4
    exact ⟨by simp, fun i hi => by omega, by simp, fun _ => by simp⟩
  have hwt : indexed = true → width * trueDepth < 4294967296 := by
    intro hidx
    by_contra hc
    subst hidx
    have hlt : templine.length < 4294967296 := by
      rw [htl rfl]
      exact Nat.mod_lt _ (by decide)
    have hw : 0 < width := by
      rcases Nat.eq_zero_or_pos width with h0 | h
      · subst h0
        omega
      · exact h
    exact filterTypes_short hpos hw (by omega) hrun
  obtain ⟨hout, hlens⟩ := filterTypes_out
    (fun _ => Nat.le_mul_of_pos_right _ (by omega)) hsize hwt hrun
  have hlen : out'.length =
      out.length + height * (if indexed then width * trueDepth else width * depth) := by
    have hflat := flatten_length_const (if indexed then width * trueDepth else width * depth)
      ((List.range height).map
        (rowOutput (width * depth) width indexed palette trueDepth res'))
      (fun l hl => by
        obtain ⟨k, hk, rfl⟩ := List.mem_map.mp hl
        exact hlens k (List.mem_range.mp hk))
    rw [List.length_map, List.length_range] at hflat
    rw [hout, List.length_append, hflat]
  refine ⟨hout, hlens, hlen, fun h => ?_⟩
  rw [hlen]
  cases indexed with
  | true =>
    simp only [if_true]
    ring
  | false =>
    rcases h with h | h
    · cases h
    · simp only [Bool.false_eq_true, if_false, h]
      ring

/-- C19 (witness). The 2x2 indexed image with the palette (0,0,0), (255,255,255) and a scratch
row of `2 * 1` bytes: the four bytes of its two rows are appended to the output. -/
theorem filterTypes_emits_witness :
    ((1 = 1 ∨ 1 = 3) ∧ 2 * (2 * 1 + 1) < 4294967296 ∧
      (true = true → [0, 0].length = u32 (2 * 1)) ∧
      filterTypes [0, 0, 1, 0, 1, 0] 2 2 1 true [0, 0, 0, 255, 255, 255] [0, 0] 1 [80] =
        Outcome.ret 0 [0, 0, 1, 0, 1, 0] [255, 0] [80, 0, 255, 255, 0]) ∧
      [80, 0, 255, 255, 0].length = [80].length + 2 * 2 * 1 :=
  ⟨⟨by decide, by decide, by decide, by decide⟩,
    (filterTypes_emits [0, 0, 1, 0, 1, 0] [0, 0, 0, 255, 255, 255] [0, 0] [80]
      [0, 0, 1, 0, 1, 0] [255, 0] [80, 0, 255, 255, 0] 2 2 1 1 true (by decide) (by decide)
      (by decide) (by decide)).2.2.2 (Or.inl rfl)⟩

/-! ## Reconstruction undoes the filters None, Sub and Up -/

/-- The same image with the byte 9 at the offset 3. -/
theorem filterTypes_wide_bad (t : List Nat) :
    filterTypes (0 :: 1 :: 2 :: 9 :: 4 :: 5 :: t) 2 1431655766 3 false [] [] 3 [] =
      Outcome.ret (-1) (0 :: 1 :: 2 :: 9 :: 4 :: 5 :: t) [] [1, 2] := by
  simp [filterTypes, rowsLoop, rowLoop, pixel, emitRow, fwrite, u32, u32sub, addAt]

theorem length_cons6 {a b c d e f : Nat} {t : List Nat} {n : Nat} (h : t.length = n) :
    (a :: b :: c :: d :: e :: f :: t).length = n + 6 := by
  simp only [List.length_cons, h]

theorem getElem?_cons6 (a b c d e f : Nat) (t : List Nat) (k : Nat) :
    (a :: b :: c :: d :: e :: f :: t)[k + 6]? = t[k]? := by
  simp

/-- C7 (counterexample). Four runs on which the claim fails. Width 0: on the image of width 0
and height 1 whose buffer is the filter byte 5, `filterTypes` returns 0. Beyond `2 ^ 32` buffer
bytes: for the width 1431655766, the height 2 and `depth` 3 the product `depth * width` is 2
in `unsigned int`; on a buffer of the full `2 * (1431655766 * 3 + 1)` bytes whose two filter
bytes, at the offsets 0 and 4294967299, are 0, and on the buffer of `decompressSize` = 6 bytes
that `main` allocates for this header, `filterTypes` takes the sample 9 at offset 3 for a
filter byte and returns -1. Paeth on the first row with `depth` 3: the run ends with a read
outside the buffer and returns neither value. An indexed image whose sample 1 is not an entry
of the palette of one triple: the run ends with a read outside the palette, although the only
filter byte is 0. -/
theorem filterTypes_code_fails :
    ([5].length = 1 * (0 * 1 + 1) ∧ [5][0 * (0 * 1 + 1)]? = some 5 ∧
      filterTypes [5] 1 0 1 false [] [] 1 [] = Outcome.ret 0 [5] [] []) ∧
    ((0 :: 1 :: 2 :: 9 :: 4 :: 5 :: List.replicate 8589934592 0).length =
        2 * (1431655766 * 3 + 1) ∧
      (0 :: 1 :: 2 :: 9 :: 4 :: 5 :: List.replicate 8589934592 0)[0]? = some 0 ∧
      (0 :: 1 :: 2 :: 9 :: 4 :: 5 :: List.replicate 8589934592 0)[4294967293 + 6]? = some 0 ∧
      filterTypes (0 :: 1 :: 2 :: 9 :: 4 :: 5 :: List.replicate 8589934592 0) 2 1431655766 3
          false [] [] 3 [] =
        Outcome.ret (-1) (0 :: 1 :: 2 :: 9 :: 4 :: 5 :: List.replicate 8589934592 0) []
          [1, 2]) ∧
    (decompressSize ⟨1431655766, 2, 8, 2, 0, 0⟩ 3 = 6 ∧
      filterTypes [0, 1, 2, 9, 4, 5] 2 1431655766 3 false [] [] 3 [] =
        Outcome.ret (-1) [0, 1, 2, 9, 4, 5] [] [1, 2]) ∧
    ([4, 1, 2, 3, 4, 5, 6].length = 1 * (2 * 3 + 1) ∧
      filterTypes [4, 1, 2, 3, 4, 5, 6] 1 2 3 false [] [] 3 [] = Outcome.fault) ∧
    ([0, 1].length = 1 * (1 * 1 + 1) ∧
      filterTypes [0, 1] 1 1 1 true [7, 7, 7] [0] 1 [] = Outcome.fault) :=
  ⟨by decide,
    ⟨length_cons6 (List.length_replicate _ _), List.getElem?_cons_zero,
      (getElem?_cons6 0 1 2 9 4 5 _ 4294967293).trans
        ((List.getElem?_replicate).trans (if_pos (by decide))),
      filterTypes_wide_bad _⟩,
    ⟨by decide, filterTypes_wide_bad []⟩, by decide, by decide⟩

/-- C14 (failing input). A supported header of width 65536 and height 65536 with colour type
0 (one byte per sample): the size that `main` computes for the decompressor is 65536, the
product `65536 * (65536 * 1 + 1) = 4295032832` reduced modulo `2 ^ 32`. -/
theorem decompressSize_wraps :
    isPNGSupported ⟨65536, 65536, 8, 0, 0, 0⟩ = true ∧
      mainPrepare ⟨65536, 65536, 8, 0, 0, 0⟩ ⟨false, none, 0, [], 0, 0⟩ =
        Ended.proceed ⟨1, 1, false, 65536⟩ ∧
      decompressSize ⟨65536, 65536, 8, 0, 0, 0⟩ 1 = 65536 ∧
      65536 * (65536 * 1 + 1) = 4295032832 := by
  decide

theorem toInt32_small {n : Nat} (h : n < 2147483648) : toInt32 n = (n : Int) := by
  unfold toInt32
  rw [Nat.mod_eq_of_lt (by omega), if_pos h]

/-- The header written for a width and a height below `2 ^ 31`. -/
theorem composePNMHeader_small (out : List Nat) (width height depth : Nat)
    (hw : width < 2147483648) (hh : height < 2147483648) :
    composePNMHeader out width height depth = out ++ pnmHeader depth width height := by
  unfold composePNMHeader pnmHeader printfD
  rw [toInt32_small hw, toInt32_small hh]
  by_cases hd : depth = 3 <;> simp [hd] <;> rfl

/-- C15 (failing input). For the width 2147483648 and the height 1 (`trueDepth` 1)
`composePNMHeader` writes `P5`, `-2147483648 1` and `255`: the conversion `%d` prints the
`unsigned int` width as a negative `int`, not its decimal representation `2147483648`. -/
theorem composePNMHeader_negative :
    composePNMHeader [] 2147483648 1 1 =
        "P5\n-2147483648 1\n255\n".toList.map Char.toNat ∧
      pnmHeader 1 2147483648 1 = "P5\n2147483648 1\n255\n".toList.map Char.toNat ∧
      composePNMHeader [] 2147483648 1 1 ≠ pnmHeader 1 2147483648 1 := by
  decide

/-! ## Grey palettes and the output depth -/

theorem isPaletteGrayscaleLoop_false (pal : List Nat) (n cp : Nat) :
    isPaletteGrayscaleLoop pal n cp false = some false := by
  cases n <;> simp [isPaletteGrayscaleLoop]

/-- The loop of `isPaletteGrayscale` over `n` entries that lie within the palette. -/
theorem isPaletteGrayscaleLoop_spec (pal : List Nat) :
    ∀ (n cp : Nat), cp + 3 * n ≤ pal.length →
      ∃ b, isPaletteGrayscaleLoop pal n cp true = some b ∧
        (b = true ↔ ∀ k, k < n →
          pal.getD (cp + 3 * k) 0 = pal.getD (cp + 3 * k + 1) 0 ∧
          pal.getD (cp + 3 * k) 0 = pal.getD (cp + 3 * k + 2) 0) := by
  intro n
  induction n with
  | zero =>
    intro cp _
    exact ⟨true, rfl, by simp⟩
  | succ n ih =>
    intro cp hlen
    have h0 : cp < pal.length := by omega
    have h1 : cp + 1 < pal.length := by omega
    have h2 : cp + 2 < pal.length := by omega
    have g0 : pal.getD cp 0 = pal[cp] := by
      rw [List.getD_eq_getElem?_getD, List.getElem?_eq_getElem h0]
      rfl
    have g1 : pal.getD (cp + 1) 0 = pal[cp + 1] := by
      rw [List.getD_eq_getElem?_getD, List.getElem?_eq_getElem h1]
      rfl
    have g2 : pal.getD (cp + 2) 0 = pal[cp + 2] := by
      rw [List.getD_eq_getElem?_getD, List.getElem?_eq_getElem h2]
      rfl
    have hshift : ∀ k, cp + 3 * (k + 1) = cp + 3 + 3 * k := by
      intro k
      ring
    simp only [isPaletteGrayscaleLoop, if_true, List.getElem?_eq_getElem h0,
      List.getElem?_eq_getElem h1, List.getElem?_eq_getElem h2]
    by_cases hab : pal[cp] = pal[cp + 1]
    · rw [if_pos hab]
      by_cases hac : pal[cp] = pal[cp + 2]
      · have hbeq : (pal[cp] == pal[cp + 2]) = true := by simp [hac]
        rw [hbeq]
        obtain ⟨b, hb, hiff⟩ := ih (cp + 3) (by omega)
        refine ⟨b, hb, ?_⟩
        rw [hiff]
        constructor
        · intro h k hk
          cases k with
          | zero =>
            simp only [Nat.mul_zero, Nat.add_zero, g0, g1, g2]
            exact ⟨hab, hac⟩
          | succ k =>
            rw [hshift k]
            exact h k (by omega)
        · intro h k hk
          have := h (k + 1) (by omega)
          rw [hshift k] at this
          exact this
      · have hbeq : (pal[cp] == pal[cp + 2]) = false := by simp [hac]
        rw [hbeq]
        refine ⟨false, isPaletteGrayscaleLoop_false _ _ _, ?_⟩
        constructor
        · intro h
          cases h
        · intro h
          have := h 0 (by omega)
          simp only [Nat.mul_zero, Nat.add_zero, g0, g2] at this
          exact absurd this.2 hac
    · rw [if_neg hab]
      refine ⟨false, isPaletteGrayscaleLoop_false _ _ _, ?_⟩
      constructor
      · intro h
        cases h
      · intro h
        have := h 0 (by omega)
        simp only [Nat.mul_zero, Nat.add_zero, g0, g1] at this
        exact absurd this.1 hab

/-- C16. For a palette of `N` triples `isPaletteGrayscale` returns true if and only if every
triple has three equal channel values; and the `trueDepth` with which `main` goes on is 1
exactly when the colour type is 0, or the colour type is 3 and the palette is grey in this
sense, and 3 in every other case; `main` does go on when the cross-check passes and, for the
colour type 3, the palette holds `palLength` triples. The palette 5 5 5, 9 9 9 is grey, the
palette 5 5 5, 9 9 8 is not. -/
theorem isPaletteGrayscale_spec :
    isPaletteGrayscale [5, 5, 5, 9, 9, 9] 2 = some true ∧
    isPaletteGrayscale [5, 5, 5, 9, 9, 8] 2 = some false ∧
    (∀ (pal : List Nat) (N : Nat), pal.length = 3 * N →
      ∃ b, isPaletteGrayscale pal N = some b ∧
        (b = true ↔ ∀ k, k < N →
          pal.getD (3 * k) 0 = pal.getD (3 * k + 1) 0 ∧
          pal.getD (3 * k) 0 = pal.getD (3 * k + 2) 0)) ∧
    (∀ (hdr : PNG_Header) (st : LoopState) (p : Prepared),
      mainPrepare hdr st = Ended.proceed p →
      (p.trueDepth = 1 ∨ p.trueDepth = 3) ∧
      (p.trueDepth = 1 ↔ (hdr.colType = 0 ∨ (hdr.colType = 3 ∧
        ∃ pal, st.palette = some pal ∧ isPaletteGrayscale pal st.palLength = some true)))) ∧
    (∀ (hdr : PNG_Header) (st : LoopState), crossCheck hdr st.palFound = false →
      (hdr.colType = 3 → ∃ pal, st.palette = some pal ∧ pal.length = 3 * st.palLength) →
      ∃ p, mainPrepare hdr st = Ended.proceed p) := by
  have hfirst : ∀ (pal : List Nat) (N : Nat), pal.length = 3 * N →
      ∃ b, isPaletteGrayscale pal N = some b ∧
        (b = true ↔ ∀ k, k < N →
          pal.getD (3 * k) 0 = pal.getD (3 * k + 1) 0 ∧
          pal.getD (3 * k) 0 = pal.getD (3 * k + 2) 0) := by
    intro pal N hlen
    obtain ⟨b, hb, hiff⟩ := isPaletteGrayscaleLoop_spec pal N 0 (by omega)
    refine ⟨b, hb, hiff.trans ?_⟩
    constructor <;> intro h k hk <;> have := h k hk <;> simpa using this
  refine ⟨by decide, by decide, hfirst, ?_, ?_⟩
  · intro hdr st p h
    unfold mainPrepare at h
    by_cases hc : crossCheck hdr st.palFound = true
    · rw [if_pos hc] at h
      cases h
    · rw [if_neg hc] at h
      simp only at h
      by_cases h3 : hdr.colType = 3
      · have h0 : ¬ hdr.colType = 0 := by omega
        rw [if_pos h3] at h
        cases hpal : st.palette with
        | none =>
          simp only [hpal] at h
          cases h
        | some pal =>
          simp only [hpal] at h
          cases hgs : isPaletteGrayscale pal st.palLength with
          | none =>
            simp only [hgs] at h
            cases h
          | some gs =>
            simp only [hgs] at h
            injection h with h
            subst h
            cases gs with
            | true =>
              simp only [if_true, true_iff]
              exact ⟨Or.inl trivial, Or.inr ⟨h3, pal, rfl, hgs⟩⟩
            | false =>
              simp only [Bool.false_eq_true, if_false, h0]
              refine ⟨Or.inr trivial, ?_⟩
              constructor
              · intro h
                cases h
              · rintro (h | ⟨-, pal', hpal', hgs'⟩)
                · exact h.elim
                · injection hpal' with hpal'
                  subst hpal'
                  rw [hgs] at hgs'
                  cases hgs'
      · rw [if_neg h3] at h
        injection h with h
        subst h
        simp only
        by_cases h0 : hdr.colType = 0
        · simp [h0]
        · simp [h0, h3]
  · intro hdr st hc hpal
    unfold mainPrepare
    rw [hc]
    simp only [Bool.false_eq_true, if_false]
    by_cases h3 : hdr.colType = 3
    · obtain ⟨pal, hp, hl⟩ := hpal h3
      obtain ⟨b, hb, -⟩ := hfirst pal st.palLength hl
      simp only [h3, if_true, hp, hb]
      exact ⟨_, rfl⟩
    · simp only [h3, if_false]
      exact ⟨_, rfl⟩

/-! ## `swapUInt` and `readChunk` -/

theorem swapUInt_bytes (a b c d : Nat) (ha : a < 256) (hb : b < 256) (hc : c < 256)
    (hd : d < 256) : swapUInt [a, b, c, d] = some (be32 a b c d) := by
  have e1 : a * 2 ^ 24 ||| b * 2 ^ 16 = (a * 256 + b) * 2 ^ 16 := by
    have := Nat.mul_add_lt_is_or (show b * 2 ^ 16 < 2 ^ 24 by omega) a
    rw [Nat.mul_comm (2 ^ 24) a] at this
    rw [← this]
    ring
  have e2 : (a * 256 + b) * 2 ^ 16 ||| c * 2 ^ 8 = ((a * 256 + b) * 256 + c) * 2 ^ 8 := by
    have := Nat.mul_add_lt_is_or (show c * 2 ^ 8 < 2 ^ 16 by omega) (a * 256 + b)
    rw [Nat.mul_comm (2 ^ 16) _] at this
    rw [← this]
    ring
  have e3 : ((a * 256 + b) * 256 + c) * 2 ^ 8 ||| d = ((a * 256 + b) * 256 + c) * 256 + d := by
    have := Nat.mul_add_lt_is_or (show d < 2 ^ 8 by omega) ((a * 256 + b) * 256 + c)
    rw [Nat.mul_comm (2 ^ 8) _] at this
    rw [← this]
  have m1 : a * 2 ^ 24 % 4294967296 = a * 2 ^ 24 := Nat.mod_eq_of_lt (by omega)
  have m2 : b * 2 ^ 16 % 4294967296 = b * 2 ^ 16 := Nat.mod_eq_of_lt (by omega)
  have m3 : c * 2 ^ 8 % 4294967296 = c * 2 ^ 8 := Nat.mod_eq_of_lt (by omega)
  simp only [swapUInt, u32, be32, List.getElem?_cons_zero, List.getElem?_cons_succ,
    Option.bind_some, Option.map_some', Nat.shiftLeft_eq, Option.some_bind, m1, m2, m3, e1, e2,
    e3]

theorem readChunk_short (f : FILE) (h : f.content.length < f.pos + 4) :
    (readChunk f).1 = none := by
  have hl : ((f.content.drop f.pos).take (4 * 1)).length / 4 < 1 := by
    rw [List.length_take, List.length_drop]
    omega
  simp only [readChunk, fread]
  rw [if_pos hl]

theorem fread_full (size count : Nat) (content : List Nat) (pos : Nat)
    (h : pos + size * count ≤ content.length) :
    fread size count ⟨content, pos⟩ =
        ((content.drop pos).take (size * count), ⟨content, pos + size * count⟩) ∧
      ((content.drop pos).take (size * count)).length = size * count := by
  have hl : ((content.drop pos).take (size * count)).length = size * count := by
    rw [List.length_take, List.length_drop]
    omega
  exact ⟨by simp only [fread, hl], hl⟩

/-- A call of `readChunk` on a stream that holds the whole chunk. -/
theorem readChunk_ok (f : FILE) (b0 b1 b2 b3 : Nat)
    (h4 : (f.content.drop f.pos).take 4 = [b0, b1, b2, b3])
    (hswap : swapUInt [b0, b1, b2, b3] = some (be32 b0 b1 b2 b3))
    (hlen : f.pos + 12 + be32 b0 b1 b2 b3 ≤ f.content.length) :
    readChunk f =
      (some { length := be32 b0 b1 b2 b3,
              type := (f.content.drop (f.pos + 4)).take 4,
              crc := le32 ((f.content.drop (f.pos + 8 + be32 b0 b1 b2 b3)).take 4),
              data := (f.content.drop (f.pos + 8)).take (be32 b0 b1 b2 b3) },
        { content := f.content, pos := f.pos + 12 + be32 b0 b1 b2 b3 }) := by
  obtain ⟨content, pos⟩ := f
  simp only at h4 hlen ⊢
  obtain ⟨e1, l1⟩ := fread_full 4 1 content pos (by omega)
  obtain ⟨e2, l2⟩ := fread_full 1 4 content (pos + 4) (by omega)
  obtain ⟨e3, l3⟩ := fread_full 1 (be32 b0 b1 b2 b3) content (pos + 8) (by omega)
  obtain ⟨e4, l4⟩ := fread_full 4 1 content (pos + 8 + be32 b0 b1 b2 b3) (by omega)
  simp only [Nat.mul_one, Nat.one_mul] at e1 e2 e3 e4 l1 l2 l3 l4
  rw [h4] at e1
  have a1 : pos + 4 + 4 = pos + 8 := by omega
  have a2 : pos + 8 + be32 b0 b1 b2 b3 + 4 = pos + 12 + be32 b0 b1 b2 b3 := by omega
  rw [a1] at e2
  rw [a2] at e4
  unfold readChunk
  simp only [e1, hswap, e2, e3, e4, l2, l3, l4, List.length_cons, List.length_nil,
    Nat.div_one, Nat.not_lt_zero, if_false, Nat.lt_irrefl]

/-- A call of `readChunk` on a stream that ends within the chunk. -/
theorem readChunk_cut (f : FILE) (b0 b1 b2 b3 : Nat)
    (h4 : (f.content.drop f.pos).take 4 = [b0, b1, b2, b3])
    (hswap : swapUInt [b0, b1, b2, b3] = some (be32 b0 b1 b2 b3))
    (hlen : f.content.length < f.pos + 12 + be32 b0 b1 b2 b3) :
    (readChunk f).1 = none := by
  obtain ⟨content, pos⟩ := f
  simp only at h4 hlen ⊢
  simp only [readChunk, fread, Nat.mul_one, Nat.one_mul, Nat.div_one, h4, hswap,
    List.length_cons, List.length_nil, List.length_take, List.length_drop]
  split_ifs with c1 c2 c3 c4 c5
  all_goals first
    | rfl
    | (exfalso; omega)

/-- C13. For a stream of bytes: `readChunk` returns no chunk when fewer than 4 bytes remain;
with `L` the big-endian value of the next 4 bytes, it returns a chunk if and only if at least
`12 + L` bytes remain, and then the chunk has the length `L`, the 4 bytes after the length as
its type and the `L` bytes that follow as its payload, and the stream has advanced by exactly
`12 + L` bytes. -/
theorem readChunk_spec (f : FILE) (hbytes : ∀ x ∈ f.content, x < 256) :
    (f.content.length < f.pos + 4 → (readChunk f).1 = none) ∧
    (∀ b0 b1 b2 b3, (f.content.drop f.pos).take 4 = [b0, b1, b2, b3] →
      ((readChunk f).1 ≠ none ↔ f.pos + 12 + be32 b0 b1 b2 b3 ≤ f.content.length) ∧
      (f.pos + 12 + be32 b0 b1 b2 b3 ≤ f.content.length →
        ∃ crc, readChunk f =
          (some { length := be32 b0 b1 b2 b3,
                  type := (f.content.drop (f.pos + 4)).take 4,
                  crc := crc,
                  data := (f.content.drop (f.pos + 8)).take (be32 b0 b1 b2 b3) },
            { content := f.content, pos := f.pos + 12 + be32 b0 b1 b2 b3 }))) := by
  refine ⟨readChunk_short f, fun b0 b1 b2 b3 h4 => ?_⟩
  have hmem : ∀ x ∈ [b0, b1, b2, b3], x < 256 := by
    intro x hx
    rw [← h4] at hx
    exact hbytes x (List.mem_of_mem_drop (List.mem_of_mem_take hx))
  have hswap := swapUInt_bytes b0 b1 b2 b3 (hmem b0 (by simp)) (hmem b1 (by simp))
    (hmem b2 (by simp)) (hmem b3 (by simp))
  refine ⟨⟨fun hne => ?_, fun hlen => ?_⟩, fun hlen => ⟨_, readChunk_ok f b0 b1 b2 b3 h4 hswap hlen⟩⟩
  · by_contra hc
    exact hne (readChunk_cut f b0 b1 b2 b3 h4 hswap (by omega))
  · rw [readChunk_ok f b0 b1 b2 b3 h4 hswap hlen]
    simp

/-- C13 (witness). A stream of 15 bytes that holds a PLTE chunk with a payload of 3 bytes:
the chunk is read and the stream advances by 15 bytes. -/
theorem readChunk_spec_witness :
    (∀ x ∈ [0, 0, 0, 3, 80, 76, 84, 69, 1, 2, 3, 9, 9, 9, 9], x < 256) ∧
      (readChunk ⟨[0, 0, 0, 3, 80, 76, 84, 69, 1, 2, 3, 9, 9, 9, 9], 0⟩).1 ≠ none :=
  ⟨by decide,
    (((readChunk_spec ⟨[0, 0, 0, 3, 80, 76, 84, 69, 1, 2, 3, 9, 9, 9, 9], 0⟩ (by decide)).2
      0 0 0 3 rfl).1).mpr (by decide)⟩

/-! ## The chunks read from a stream -/

/-- A chunk that `readChunk` returns: its type has 4 bytes, its payload as many bytes as its
length says, and the stream has advanced by 12 bytes and the payload, within the file. -/
theorem readChunk_some {f : FILE} {ch : PNG_Chunk} (h : (readChunk f).1 = some ch) :
    (readChunk f).2.content = f.content ∧ (readChunk f).2.pos = f.pos + 12 + ch.length ∧
      (readChunk f).2.pos ≤ f.content.length ∧ ch.data.length = ch.length ∧
      ch.type.length = 4 := by
  obtain ⟨content, pos⟩ := f
  generalize hr : readChunk ⟨content, pos⟩ = r at h ⊢
  simp only [readChunk, fread, Nat.mul_one, Nat.one_mul, Nat.div_one] at hr
  cases hs : swapUInt (List.take 4 (List.drop pos content)) with
  | none =>
    simp only [hs] at hr
    split_ifs at hr
    all_goals
      subst hr
      cases h
  | some tmp =>
    simp only [hs] at hr
    split_ifs at hr with c1 c2 c3 c4 c5
    all_goals subst hr
    all_goals cases h
    simp only [List.length_take, List.length_drop] at c1 c3 c4 c5 ⊢
    refine ⟨trivial, ?_, ?_, ?_, ?_⟩ <;> omega

theorem readChunks_succ (n : Nat) (f : FILE) :
    readChunks (n + 1) f =
      match (readChunk f).1 with
      | none => []
      | some ch => ch :: readChunks n (readChunk f).2 := rfl

/-- The chunks read lie one after the other in the rest of the stream. -/
theorem readChunks_sum :
    ∀ (n : Nat) (f : FILE),
      ((readChunks n f).map fun ch => 12 + ch.length).sum ≤ f.content.length - f.pos ∧
      ∀ ch ∈ readChunks n f, ch.data.length = ch.length ∧ ch.type.length = 4 := by
  intro n
  induction n with
  | zero =>
    intro f
    simp [readChunks]
  | succ n ih =>
    intro f
    rw [readChunks_succ]
    cases h : (readChunk f).1 with
    | none => simp
    | some ch =>
      obtain ⟨h1, h2, h3, h4, h5⟩ := readChunk_some h
      obtain ⟨hsum, hwf⟩ := ih (readChunk f).2
      rw [h1, h2] at hsum
      rw [h2] at h3
      refine ⟨?_, ?_⟩
      · simp only [List.map_cons, List.sum_cons]
        omega
      · intro c hc
        rcases List.mem_cons.mp hc with rfl | hc
        · exact ⟨h4, h5⟩
        · exact hwf c hc

theorem sum_ge_length (cs : List PNG_Chunk) :
    12 * cs.length ≤ (cs.map fun ch => 12 + ch.length).sum := by
  induction cs with
  | nil => simp
  | cons c cs ih =>
    simp only [List.map_cons, List.sum_cons, List.length_cons]
    omega

theorem chunkLoop_succ (n : Nat) (f : FILE) (st : LoopState) :
    chunkLoop (n + 1) f st =
      match chunkTurn st (readChunk f).1 with
      | Turn.fault => Ended.fault
      | Turn.exit code => Ended.exit code
      | Turn.eof st' => Ended.proceed st'
      | Turn.again st' => chunkLoop n (readChunk f).2 st' := rfl

/-- The chunk loop with a bound that the number of chunks in the stream does not reach: its
turns are those on the sequence of the chunks read. -/
theorem chunkLoop_eq :
    ∀ (n : Nat) (f : FILE) (st : LoopState), (readChunks n f).length < n →
      chunkLoop n f st = endOfTurns (foldTurns st (readChunks n f)) := by
  intro n
  induction n with
  | zero =>
    intro f st h
    simp at h
  | succ n ih =>
    intro f st h
    rw [chunkLoop_succ, readChunks_succ]
    rw [readChunks_succ] at h
    cases hr : (readChunk f).1 with
    | none => rfl
    | some ch =>
      simp only [hr, List.length_cons] at h
      simp only [foldTurns]
      cases ht : chunkTurn st (some ch) with
      | fault => rfl
      | exit code => rfl
      | eof st' => rfl
      | again st' =>
        simp only
        exact ih (readChunk f).2 st' (by omega)

theorem toInt32_toNat {n : Nat} (h : n < 2147483648) :
    0 ≤ toInt32 n ∧ (toInt32 n).toNat = n := by
  rw [toInt32_small h]
  exact ⟨Int.ofNat_nonneg n, Int.toNat_ofNat n⟩

/-- The chunk loop of `main` on a file of fewer than `2 ^ 31` bytes: the turns on the chunks
of the stream, started with a buffer `data` of the size of the file. -/
theorem mainChunks_eq (f : FILE) (hsize : f.content.length < 2147483648)
    (hpos : f.pos ≤ f.content.length) :
    mainChunks f = endOfTurns (foldTurns
      { palFound := false, palette := none, palLength := 0,
        data := List.replicate f.content.length 0, cp := 0, trueSize := 0 } (chunksOf f)) := by
  have hf : (fSize f).2 = f := by
    obtain ⟨content, pos⟩ := f
    simp only at hsize hpos
    obtain ⟨h1, h2⟩ := toInt32_toNat (show pos < 2147483648 by omega)
    simp only [fSize, h1, h2, if_true]
  have hs : sizeT (fSize f).1 = f.content.length := by
    simp only [fSize, sizeT, toInt32_small hsize]
    omega
  unfold mainChunks chunksOf
  rw [hf, hs]
  apply chunkLoop_eq
  have h1 := (readChunks_sum (f.content.length + 1) f).1
  have h2 := sum_ge_length (readChunks (f.content.length + 1) f)
  omega

/-! ## One turn of the chunk loop -/

theorem strncmp_PLTE (t : List Nat) (ht : t.length = 4) :
    strncmp t PLTE 4 = 0 ↔ t = [80, 76, 84, 69] := by
  obtain _ | ⟨a, _ | ⟨b, _ | ⟨c, _ | ⟨d, _ | ⟨e, t⟩⟩⟩⟩⟩ := t <;> simp at ht
  simp only [strncmp, PLTE, List.headD_cons, List.tail_cons]
  split_ifs <;> simp_all <;> omega

theorem strncmp_IDAT (t : List Nat) (ht : t.length = 4) :
    strncmp t IDAT 4 = 0 ↔ t = [73, 68, 65, 84] := by
  obtain _ | ⟨a, _ | ⟨b, _ | ⟨c, _ | ⟨d, _ | ⟨e, t⟩⟩⟩⟩⟩ := t <;> simp at ht
  simp only [strncmp, IDAT, List.headD_cons, List.tail_cons]
  split_ifs <;> simp_all <;> omega

theorem strncmp_IEND (t : List Nat) (ht : t.length = 4) :
    strncmp t IEND 4 = 0 ↔ t = [73, 69, 78, 68] := by
  obtain _ | ⟨a, _ | ⟨b, _ | ⟨c, _ | ⟨d, _ | ⟨e, t⟩⟩⟩⟩⟩ := t <;> simp at ht
  simp only [strncmp, IEND, List.headD_cons, List.tail_cons]
  split_ifs <;> simp_all <;> omega

theorem isPLTE_iff (ch : PNG_Chunk) (ht : ch.type.length = 4) :
    strncmp ch.type PLTE 4 = 0 ↔ isPLTE ch = true := by
  rw [strncmp_PLTE _ ht]
  simp [isPLTE]

theorem isIDAT_iff (ch : PNG_Chunk) (ht : ch.type.length = 4) :
    strncmp ch.type IDAT 4 = 0 ↔ isIDAT ch = true := by
  rw [strncmp_IDAT _ ht]
  simp [isIDAT]

theorem isIEND_iff (ch : PNG_Chunk) (ht : ch.type.length = 4) :
    strncmp ch.type IEND 4 = 0 ↔ isIEND ch = true := by
  rw [strncmp_IEND _ ht]
  simp [isIEND]

theorem not_isIDAT_of_isPLTE {ch : PNG_Chunk} (h : isPLTE ch = true) : isIDAT ch = false := by
  simp only [isPLTE, beq_iff_eq] at h
  simp [isIDAT, h]

theorem not_isIEND_of_isPLTE {ch : PNG_Chunk} (h : isPLTE ch = true) : isIEND ch = false := by
  simp only [isPLTE, beq_iff_eq] at h
  simp [isIEND, h]

theorem not_isIEND_of_isIDAT {ch : PNG_Chunk} (h : isIDAT ch = true) : isIEND ch = false := by
  simp only [isIDAT, beq_iff_eq] at h
  simp [isIEND, h]

theorem memcpy_fresh (data : List Nat) (n : Nat) (h : data.length = n) :
    memcpy (List.replicate n 0) 0 data 0 n = some data := by
  unfold memcpy
  rw [if_pos ⟨by omega, by simp⟩]
  simp [← h]

/-- A PLTE chunk whose length is not a multiple of 3 ends `main` with
`ERROR_DATA_INVALID`. -/
theorem chunkTurn_badPLTE (st : LoopState) (ch : PNG_Chunk) (ht : ch.type.length = 4)
    (hp : isPLTE ch = true) (h3 : ch.length % 3 ≠ 0) :
    chunkTurn st (some ch) = Turn.exit ReturnCode.ERROR_DATA_INVALID := by
  simp only [chunkTurn]
  rw [if_pos ((isPLTE_iff ch ht).mpr hp), if_pos h3]

/-- A PLTE chunk whose length is a multiple of 3 is stored as the palette. -/
theorem chunkTurn_PLTE (st : LoopState) (ch : PNG_Chunk) (ht : ch.type.length = 4)
    (hd : ch.data.length = ch.length) (hp : isPLTE ch = true) (h3 : ch.length % 3 = 0) :
    chunkTurn st (some ch) =
      Turn.again { st with palette := some ch.data, palLength := ch.length / 3,
                           palFound := true } := by
  simp only [chunkTurn]
  rw [if_pos ((isPLTE_iff ch ht).mpr hp), if_neg (by omega), memcpy_fresh ch.data ch.length hd]

/-- An IDAT chunk is appended to the buffer `data`. -/
theorem chunkTurn_IDAT (st : LoopState) (ch : PNG_Chunk) (ht : ch.type.length = 4)
    (hd : ch.data.length = ch.length) (hi : isIDAT ch = true)
    (hroom : st.cp + ch.length ≤ st.data.length) (hts : st.trueSize < 4294967296) :
    ∃ st', chunkTurn st (some ch) = Turn.again st' ∧
      st'.data.take st'.cp = st.data.take st.cp ++ ch.data ∧ st'.cp = st.cp + ch.length ∧
      st'.data.length = st.data.length ∧ st'.trueSize = u32 (st.trueSize + ch.length) ∧
      st'.palFound = st.palFound ∧ st'.palette = st.palette ∧
      st'.palLength = st.palLength := by
  have hnp : ¬ strncmp ch.type PLTE 4 = 0 := by
    intro h
    have := not_isIDAT_of_isPLTE ((isPLTE_iff ch ht).mp h)
    rw [hi] at this
    cases this
  simp only [chunkTurn]
  rw [if_neg hnp, if_pos ((isIDAT_iff ch ht).mpr hi)]
  rcases Nat.eq_zero_or_pos ch.length with h0 | hpos
  · rw [if_neg (by omega)]
    have hnil : ch.data = [] := List.eq_nil_of_length_eq_zero (by omega)
    refine ⟨st, rfl, by rw [hnil, List.append_nil], by omega, rfl, ?_, rfl, rfl, rfl⟩
    rw [h0, Nat.add_zero, u32_of_lt hts]
  · rw [if_pos hpos]
    simp only [memcpy]
    rw [if_pos ⟨by omega, hroom⟩]
    refine ⟨_, rfl, ?_, rfl, ?_, rfl, rfl, rfl, rfl⟩
    · simp only [List.drop_zero]
      rw [List.take_of_length_le (show ch.data.length ≤ ch.length by omega),
        ← List.append_assoc]
      apply List.take_left'
      simp only [List.length_append, List.length_take]
      omega
    · simp only [List.drop_zero, List.length_append, List.length_take, List.length_drop]
      omega

/-- The IEND chunk ends the loop. -/
theorem chunkTurn_IEND (st : LoopState) (ch : PNG_Chunk) (ht : ch.type.length = 4)
    (he : isIEND ch = true) : chunkTurn st (some ch) = Turn.eof st := by
  have hnp : ¬ strncmp ch.type PLTE 4 = 0 := by
    intro h
    have := not_isIEND_of_isPLTE ((isPLTE_iff ch ht).mp h)
    rw [he] at this
    cases this
  have hni : ¬ strncmp ch.type IDAT 4 = 0 := by
    intro h
    have := not_isIEND_of_isIDAT ((isIDAT_iff ch ht).mp h)
    rw [he] at this
    cases this
  simp only [chunkTurn]
  rw [if_neg hnp, if_neg hni, if_pos ((isIEND_iff ch ht).mpr he)]

/-- A chunk of any other type is skipped. -/
theorem chunkTurn_other (st : LoopState) (ch : PNG_Chunk) (ht : ch.type.length = 4)
    (hp : isPLTE ch = false) (hi : isIDAT ch = false) (he : isIEND ch = false) :
    chunkTurn st (some ch) = Turn.again st := by
  have hnp : ¬ strncmp ch.type PLTE 4 = 0 := by
    intro h
    rw [(isPLTE_iff ch ht).mp h] at hp
    cases hp
  have hni : ¬ strncmp ch.type IDAT 4 = 0 := by
    intro h
    rw [(isIDAT_iff ch ht).mp h] at hi
    cases hi
  have hne : ¬ strncmp ch.type IEND 4 = 0 := by
    intro h
    rw [(isIEND_iff ch ht).mp h] at he
    cases he
  simp only [chunkTurn]
  rw [if_neg hnp, if_neg hni, if_neg hne]

/-- What a chunk other than IEND and other than a PLTE chunk of a wrong length does to the
variables of `main`. -/
theorem chunkTurn_again (st : LoopState) (ch : PNG_Chunk) (ht : ch.type.length = 4)
    (hd : ch.data.length = ch.length) (he : isIEND ch = false)
    (h3 : isPLTE ch = true → ch.length % 3 = 0)
    (hroom : st.cp + (if isIDAT ch then ch.length else 0) ≤ st.data.length)
    (hts : st.trueSize < 4294967296) :
    ∃ st', chunkTurn st (some ch) = Turn.again st' ∧
      st'.data.take st'.cp = st.data.take st.cp ++ (if isIDAT ch then ch.data else []) ∧
      st'.cp = st.cp + (if isIDAT ch then ch.length else 0) ∧
      st'.data.length = st.data.length ∧
      st'.trueSize = u32 (st.trueSize + (if isIDAT ch then ch.length else 0)) ∧
      st'.palFound = (st.palFound || isPLTE ch) ∧
      st'.palette = (if isPLTE ch then some ch.data else st.palette) ∧
      st'.palLength = (if isPLTE ch then ch.length / 3 else st.palLength) := by
  cases hp : isPLTE ch with
  | true =>
    have hi := not_isIDAT_of_isPLTE hp
    rw [chunkTurn_PLTE st ch ht hd hp (h3 hp)]
    refine ⟨_, rfl, ?_⟩
    simp [hi, u32_of_lt hts]
  | false =>
    cases hi : isIDAT ch with
    | true =>
      rw [hi] at hroom
      obtain ⟨st', h1, h2, h4, h5, h6, h7, h8, h9⟩ :=
        chunkTurn_IDAT st ch ht hd hi (by simpa using hroom) hts
      exact ⟨st', h1, by simpa using h2, by simpa using h4, h5, by simpa using h6,
        by simpa using h7, by simpa using h8, by simpa using h9⟩
    | false =>
      rw [chunkTurn_other st ch ht hp hi he]
      refine ⟨_, rfl, ?_⟩
      simp [u32_of_lt hts]

/-! ## The turns of the chunk loop before the IEND chunk -/

theorem idatPayload_cons (ch : PNG_Chunk) (cs : List PNG_Chunk) :
    idatPayload (ch :: cs) = (if isIDAT ch then ch.data else []) ++ idatPayload cs := by
  unfold idatPayload
  cases h : isIDAT ch <;> simp [List.filter_cons, h]

theorem idatTotal_cons (ch : PNG_Chunk) (cs : List PNG_Chunk) :
    idatTotal (ch :: cs) = (if isIDAT ch then ch.length else 0) + idatTotal cs := by
  unfold idatTotal
  cases h : isIDAT ch <;> simp [List.filter_cons, h]

theorem lastPLTE_cons (ch : PNG_Chunk) (cs : List PNG_Chunk) :
    lastPLTE (ch :: cs) = if isPLTE ch then some ((lastPLTE cs).getD ch) else lastPLTE cs := by
  unfold lastPLTE
  cases h : isPLTE ch <;> simp [List.filter_cons, h, List.getLast?_cons]

theorem idatTotal_le_sum (cs : List PNG_Chunk) :
    idatTotal cs ≤ (cs.map fun ch => 12 + ch.length).sum := by
  induction cs with
  | nil => simp [idatTotal]
  | cons c cs ih =>
    rw [idatTotal_cons]
    simp only [List.map_cons, List.sum_cons]
    split_ifs <;> omega

theorem foldTurns_cons (st : LoopState) (ch : PNG_Chunk) (cs : List PNG_Chunk) :
    foldTurns st (ch :: cs) =
      match chunkTurn st (some ch) with
      | Turn.again st' => foldTurns st' cs
      | Turn.eof st' => Turn.eof st'
      | Turn.exit code => Turn.exit code
      | Turn.fault => Turn.fault := rfl

/-- The variables of `main` after the turns on a sequence of chunks without an IEND chunk and
without a PLTE chunk of a wrong length. -/
theorem foldTurns_prefix (rest : List PNG_Chunk) :
    ∀ (pre : List PNG_Chunk) (st : LoopState),
      (∀ ch ∈ pre, ch.data.length = ch.length ∧ ch.type.length = 4) →
      (∀ ch ∈ pre, isIEND ch = false) →
      (∀ ch ∈ pre, isPLTE ch = true → ch.length % 3 = 0) →
      st.cp + idatTotal pre ≤ st.data.length → st.trueSize < 4294967296 →
      ∃ st', foldTurns st (pre ++ rest) = foldTurns st' rest ∧
        st'.data.take st'.cp = st.data.take st.cp ++ idatPayload pre ∧
        st'.cp = st.cp + idatTotal pre ∧
        st'.data.length = st.data.length ∧
        st'.trueSize = u32 (st.trueSize + idatTotal pre) ∧
        st'.palFound = (st.palFound || pre.any isPLTE) ∧
        st'.palette = ((lastPLTE pre).map fun c => c.data).or st.palette ∧
        st'.palLength = ((lastPLTE pre).map fun c => c.length / 3).getD st.palLength := by
  intro pre
  induction pre with
  | nil =>
    intro st _ _ _ _ hts
    refine ⟨st, rfl, ?_⟩
    simp [idatPayload, idatTotal, lastPLTE, u32_of_lt hts]
  | cons ch pre ih =>
    intro st hwf hne h3 hroom hts
    rw [idatTotal_cons] at hroom
    obtain ⟨hd, ht⟩ := hwf ch (List.mem_cons_self _ _)
    obtain ⟨s1, e1, p1, p2, p3, p4, p5, p6, p7⟩ := chunkTurn_again st ch ht hd
      (hne ch (List.mem_cons_self _ _)) (h3 ch (List.mem_cons_self _ _)) (by omega) hts
    obtain ⟨s2, e2, q1, q2, q3, q4, q5, q6, q7⟩ := ih s1
      (fun c hc => hwf c (List.mem_cons_of_mem _ hc))
      (fun c hc => hne c (List.mem_cons_of_mem _ hc))
      (fun c hc => h3 c (List.mem_cons_of_mem _ hc))
      (by rw [p2, p3]; omega)
      (by rw [p4]; exact Nat.mod_lt _ (by decide))
    refine ⟨s2, ?_, ?_, ?_, ?_, ?_, ?_, ?_, ?_⟩
    · rw [List.cons_append, foldTurns_cons, e1]
      exact e2
    · rw [q1, p1, idatPayload_cons, List.append_assoc]
    · rw [q2, p2, idatTotal_cons]
      omega
    · rw [q3, p3]
    · rw [q4, p4, idatTotal_cons]
      unfold u32
      rw [Nat.mod_add_mod, Nat.add_assoc]
    · rw [q5, p5, List.any_cons, Bool.or_assoc]
    · rw [q6, p6, lastPLTE_cons]
      cases isPLTE ch <;> cases lastPLTE pre <;> simp
    · rw [q7, p7, lastPLTE_cons]
      cases isPLTE ch <;> cases lastPLTE pre <;> simp

/-- A PLTE chunk of a wrong length before any IEND chunk ends `main` with
`ERROR_DATA_INVALID`. -/
theorem foldTurns_bad (rest : List PNG_Chunk) :
    ∀ (pre : List PNG_Chunk) (st : LoopState),
      (∀ ch ∈ pre, ch.data.length = ch.length ∧ ch.type.length = 4) →
      (∀ ch ∈ pre, isIEND ch = false) →
      st.cp + idatTotal pre ≤ st.data.length → st.trueSize < 4294967296 →
      (∃ ch ∈ pre, isPLTE ch = true ∧ ch.length % 3 ≠ 0) →
      foldTurns st (pre ++ rest) = Turn.exit ReturnCode.ERROR_DATA_INVALID := by
  intro pre
  induction pre with
  | nil =>
    intro st _ _ _ _ ⟨ch, hc, _⟩
    cases hc
  | cons ch pre ih =>
    intro st hwf hne hroom hts hbad
    rw [idatTotal_cons] at hroom
    obtain ⟨hd, ht⟩ := hwf ch (List.mem_cons_self _ _)
    rw [List.cons_append, foldTurns_cons]
    by_cases hhead : isPLTE ch = true ∧ ch.length % 3 ≠ 0
    · rw [chunkTurn_badPLTE st ch ht hhead.1 hhead.2]
    · obtain ⟨s1, e1, p1, p2, p3, p4, -⟩ := chunkTurn_again st ch ht hd
        (hne ch (List.mem_cons_self _ _))
        (fun hp => by
          by_contra hc
          exact hhead ⟨hp, hc⟩)
        (by omega) hts
      rw [e1]
      refine ih s1 (fun c hc => hwf c (List.mem_cons_of_mem _ hc))
        (fun c hc => hne c (List.mem_cons_of_mem _ hc)) (by rw [p2, p3]; omega)
        (by rw [p4]; exact Nat.mod_lt _ (by decide)) ?_
      obtain ⟨c, hc, hcb⟩ := hbad
      rcases List.mem_cons.mp hc with rfl | hc
      · exact absurd hcb hhead
      · exact ⟨c, hc, hcb⟩

/-! ## The chunk loop of `main` -/

theorem split_at_getElem? {α : Type} (l : List α) (k : Nat) (e : α) (h : l[k]? = some e) :
    l = l.take k ++ e :: l.drop (k + 1) := by
  obtain ⟨hk, he⟩ := List.getElem?_eq_some.mp h
  rw [← he, ← List.drop_eq_getElem_cons hk, List.take_append_drop]

theorem sum_take_le (cs : List PNG_Chunk) (k : Nat) :
    ((cs.take k).map fun ch => 12 + ch.length).sum ≤ (cs.map fun ch => 12 + ch.length).sum := by
  conv => rhs; rw [← List.take_append_drop k cs]
  rw [List.map_append, List.sum_append]
  omega

/-- The variables of `main` when the chunk loop reaches the IEND chunk: for a file of fewer
than `2 ^ 31` bytes whose chunk `k` is the first IEND chunk and whose PLTE chunks before it
have lengths divisible by 3. -/
theorem mainChunks_proceed (f : FILE) (hsize : f.content.length < 2147483648)
    (hpos : f.pos ≤ f.content.length) (k : Nat) (e : PNG_Chunk)
    (hk : (chunksOf f)[k]? = some e) (he : isIEND e = true)
    (hfirst : ∀ ch ∈ (chunksOf f).take k, isIEND ch = false)
    (hgood : ∀ ch ∈ (chunksOf f).take k, isPLTE ch = true → ch.length % 3 = 0) :
    ∃ st, mainChunks f = Ended.proceed st ∧
      st.data.take st.trueSize = idatPayload ((chunksOf f).take k) ∧
      st.trueSize = idatTotal ((chunksOf f).take k) ∧
      st.palFound = ((chunksOf f).take k).any isPLTE ∧
      st.palette = (lastPLTE ((chunksOf f).take k)).map (fun c => c.data) ∧
      st.palLength = ((lastPLTE ((chunksOf f).take k)).map fun c => c.length / 3).getD 0 := by
  obtain ⟨hsum, hwf⟩ := readChunks_sum (f.content.length + 1) f
  have hcs := split_at_getElem? (chunksOf f) k e hk
  have hcap : idatTotal ((chunksOf f).take k) ≤ f.content.length := by
    have h1 := idatTotal_le_sum ((chunksOf f).take k)
    have h2 := sum_take_le (chunksOf f) k
    unfold chunksOf at h1 h2 ⊢
    omega
  obtain ⟨st, e1, p1, p2, p3, p4, p5, p6, p7⟩ := foldTurns_prefix (e :: (chunksOf f).drop (k + 1))
    ((chunksOf f).take k)
    (LoopState.mk false none 0 (List.replicate f.content.length 0) 0 0)
    (fun c hc => hwf c (List.mem_of_mem_take hc)) hfirst hgood
    (by simp only [List.length_replicate]; omega) (by show (0 : Nat) < 4294967296; omega)
  have hwfe := hwf e (by
    obtain ⟨hk1, hk2⟩ := List.getElem?_eq_some.mp hk
    rw [← hk2]
    exact List.getElem_mem hk1)
  rw [← hcs, foldTurns_cons, chunkTurn_IEND st e hwfe.2 he] at e1
  refine ⟨st, ?_, ?_, ?_, ?_, ?_, ?_⟩
  · rw [mainChunks_eq f hsize hpos, e1]
    rfl
  · simp only [Nat.zero_add, List.take_zero, List.nil_append] at p1 p2 p4
    rw [p4, u32_of_lt (by omega), ← p2, p1]
  · simp only [Nat.zero_add] at p4
    rw [p4, u32_of_lt (by omega)]
  · simpa using p5
  · rw [p6]
    cases lastPLTE ((chunksOf f).take k) <;> rfl
  · exact p7

/-- The chunk loop of `main` on a file with a PLTE chunk of a wrong length before any IEND
chunk. -/
theorem mainChunks_invalid (f : FILE) (hsize : f.content.length < 2147483648)
    (hpos : f.pos ≤ f.content.length) (k : Nat) (ch : PNG_Chunk)
    (hk : (chunksOf f)[k]? = some ch) (hp : isPLTE ch = true) (h3 : ch.length % 3 ≠ 0)
    (hfirst : ∀ c ∈ (chunksOf f).take k, isIEND c = false) :
    mainChunks f = Ended.exit ReturnCode.ERROR_DATA_INVALID := by
  obtain ⟨hsum, hwf⟩ := readChunks_sum (f.content.length + 1) f
  have hcs : chunksOf f = ((chunksOf f).take k ++ [ch]) ++ (chunksOf f).drop (k + 1) := by
    rw [List.append_assoc]
    exact split_at_getElem? (chunksOf f) k ch hk
  have htake : (chunksOf f).take (k + 1) = (chunksOf f).take k ++ [ch] := by
    rw [List.take_succ, hk]
    rfl
  have hcap : idatTotal ((chunksOf f).take k ++ [ch]) ≤ f.content.length := by
    have h1 := idatTotal_le_sum ((chunksOf f).take (k + 1))
    have h2 := sum_take_le (chunksOf f) (k + 1)
    rw [htake] at h1 h2
    unfold chunksOf at h1 h2 ⊢
    omega
  have hmem : ∀ c ∈ (chunksOf f).take k ++ [ch], c ∈ chunksOf f := by
    intro c hc
    rw [← htake] at hc
    exact List.mem_of_mem_take hc
  have hbad := foldTurns_bad ((chunksOf f).drop (k + 1)) ((chunksOf f).take k ++ [ch])
    (LoopState.mk false none 0 (List.replicate f.content.length 0) 0 0)
    (fun c hc => hwf c (hmem c hc))
    (fun c hc => by
      rcases List.mem_append.mp hc with h | h
      · exact hfirst c h
      · rw [List.mem_singleton.mp h]
        exact not_isIEND_of_isPLTE hp)
    (by simp only [List.length_replicate]; omega) (by show (0 : Nat) < 4294967296; omega)
    ⟨ch, by simp, hp, h3⟩
  rw [← hcs] at hbad
  rw [mainChunks_eq f hsize hpos, hbad]
  rfl

/-- The cross-check of `main` after the chunk loop (lines 414-420) is the only exit of
`mainPrepare` with `ERROR_DATA_INVALID`. -/
theorem mainPrepare_exit_iff (hdr : PNG_Header) (st : LoopState) :
    mainPrepare hdr st = Ended.exit ReturnCode.ERROR_DATA_INVALID ↔
      crossCheck hdr st.palFound = true := by
  unfold mainPrepare
  by_cases hc : crossCheck hdr st.palFound = true
  · rw [if_pos hc]
    exact ⟨fun _ => hc, fun _ => rfl⟩
  · rw [if_neg hc]
    refine ⟨fun h => ?_, fun h => absurd h hc⟩
    exfalso
    simp only at h
    by_cases h3 : hdr.colType = 3
    · rw [if_pos h3] at h
      cases hpal : st.palette with
      | none =>
        simp only [hpal] at h
        cases h
      | some pal =>
        simp only [hpal] at h
        cases hgs : isPaletteGrayscale pal st.palLength with
        | none =>
          simp only [hgs] at h
          cases h
        | some gs =>
          simp only [hgs] at h
          cases h
    · rw [if_neg h3] at h
      cases h

theorem crossCheck_iff (hdr : PNG_Header) (palFound : Bool) :
    crossCheck hdr palFound = true ↔
      (hdr.colType = 0 ∧ palFound = true) ∨ (hdr.colType = 3 ∧ palFound = false) := by
  unfold crossCheck
  cases palFound <;> simp

/-- C11. For every stream (of fewer than `2 ^ 31` bytes, the range of the `int` that holds
the file size) whose chunk loop reaches the IEND chunk, chunk `k` of the chunks read, with
no malformed PLTE chunk before it: the loop goes on to the cross-check, and the cross-check
ends with `ERROR_DATA_INVALID` if and only if the colour type is 0 and a PLTE chunk was read
before the IEND chunk, or the colour type is 3 and no PLTE chunk was read before it. -/
theorem mainChunks_crossCheck (f : FILE) (hdr : PNG_Header)
    (hsize : f.content.length < 2147483648) (hpos : f.pos ≤ f.content.length)
    (k : Nat) (e : PNG_Chunk) (hk : (chunksOf f)[k]? = some e) (he : isIEND e = true)
    (hfirst : ∀ ch ∈ (chunksOf f).take k, isIEND ch = false)
    (hgood : ∀ ch ∈ (chunksOf f).take k, isPLTE ch = true → ch.length % 3 = 0) :
    ∃ st, mainChunks f = Ended.proceed st ∧
      (mainPrepare hdr st = Ended.exit ReturnCode.ERROR_DATA_INVALID ↔
        (hdr.colType = 0 ∧ ∃ ch ∈ (chunksOf f).take k, isPLTE ch = true) ∨
        (hdr.colType = 3 ∧ ∀ ch ∈ (chunksOf f).take k, isPLTE ch = false)) := by
  obtain ⟨st, h1, _, _, hpal, _, _⟩ := mainChunks_proceed f hsize hpos k e hk he hfirst hgood
  refine ⟨st, h1, ?_⟩
  rw [mainPrepare_exit_iff, crossCheck_iff, hpal]
  have hany : ((chunksOf f).take k).any isPLTE = true ↔
      ∃ ch ∈ (chunksOf f).take k, isPLTE ch = true := by
    rw [List.any_eq_true]
  have hnone : ((chunksOf f).take k).any isPLTE = false ↔
      ∀ ch ∈ (chunksOf f).take k, isPLTE ch = false := by
    rw [List.any_eq_false]
    constructor <;> intro h ch hch <;> have := h ch hch <;> simpa using this
  rw [hany, hnone]

/-- C11 (witness). A stream with a PLTE chunk (one grey entry), an IDAT chunk of two bytes and
the IEND chunk, under a header of colour type 0: the cross-check rejects it. -/
theorem mainChunks_crossCheck_witness :
    ∃ st, mainChunks ⟨[0,0,0,3, 80,76,84,69, 1,1,1, 9,9,9,9, 0,0,0,2, 73,68,65,84, 7,8,
        9,9,9,9, 0,0,0,0, 73,69,78,68, 9,9,9,9], 0⟩ = Ended.proceed st ∧
      (mainPrepare ⟨1, 1, 8, 0, 0, 0⟩ st = Ended.exit ReturnCode.ERROR_DATA_INVALID ↔
        ((⟨1, 1, 8, 0, 0, 0⟩ : PNG_Header).colType = 0 ∧
          ∃ ch ∈ (chunksOf ⟨[0,0,0,3, 80,76,84,69, 1,1,1, 9,9,9,9, 0,0,0,2, 73,68,65,84, 7,8,
            9,9,9,9, 0,0,0,0, 73,69,78,68, 9,9,9,9], 0⟩).take 2, isPLTE ch = true) ∨
        ((⟨1, 1, 8, 0, 0, 0⟩ : PNG_Header).colType = 3 ∧
          ∀ ch ∈ (chunksOf ⟨[0,0,0,3, 80,76,84,69, 1,1,1, 9,9,9,9, 0,0,0,2, 73,68,65,84, 7,8,
            9,9,9,9, 0,0,0,0, 73,69,78,68, 9,9,9,9], 0⟩).take 2, isPLTE ch = false)) :=
  mainChunks_crossCheck ⟨[0,0,0,3, 80,76,84,69, 1,1,1, 9,9,9,9, 0,0,0,2, 73,68,65,84, 7,8,
      9,9,9,9, 0,0,0,0, 73,69,78,68, 9,9,9,9], 0⟩ ⟨1, 1, 8, 0, 0, 0⟩ (by decide) (by decide)
    2 ⟨0, [73,69,78,68], 151587081, []⟩ (by decide) (by decide) (by decide) (by decide)

/-- The buffer handed to `uncompress`, for a file of fewer than `2 ^ 31` bytes, the range of
the `int` that holds the file size. When the first IEND chunk of the stream is chunk `k` of
the chunks read and no PLTE chunk before it has a length not divisible by 3: the
chunk loop goes on, the first `trueSize` bytes of `data`, which `main` hands to `uncompress`,
are the payloads of the IDAT chunks among the chunks `0 .. k-1` in the order of arrival, and
`trueSize` is the sum of their lengths; a turn of the loop on an IDAT chunk of length 0 or on
a chunk that is none of PLTE, IDAT, IEND leaves every variable as it was. -/
theorem mainChunks_data (f : FILE)
    (hsize : f.content.length < 2147483648) (hpos : f.pos ≤ f.content.length)
    (k : Nat) (e : PNG_Chunk) (hk : (chunksOf f)[k]? = some e) (he : isIEND e = true)
    (hfirst : ∀ ch ∈ (chunksOf f).take k, isIEND ch = false)
    (hgood : ∀ ch ∈ (chunksOf f).take k, isPLTE ch = true → ch.length % 3 = 0) :
    (∃ st, mainChunks f = Ended.proceed st ∧
      st.data.take st.trueSize = idatPayload ((chunksOf f).take k) ∧
      st.trueSize = idatTotal ((chunksOf f).take k)) ∧
    (∀ ch ∈ chunksOf f, ∀ st : LoopState, isIDAT ch = true → ch.length = 0 →
      chunkTurn st (some ch) = Turn.again st) ∧
    (∀ ch ∈ chunksOf f, ∀ st : LoopState, isPLTE ch = false → isIDAT ch = false →
      isIEND ch = false → chunkTurn st (some ch) = Turn.again st) := by
  obtain ⟨st, h1, h2, h3, _⟩ := mainChunks_proceed f hsize hpos k e hk he hfirst hgood
  obtain ⟨_, hwf⟩ := readChunks_sum (f.content.length + 1) f
  refine ⟨⟨st, h1, h2, h3⟩, ?_, ?_⟩
  · intro ch hch st hi h0
    have ht := (hwf ch hch).2
    have hnp : ¬ strncmp ch.type PLTE 4 = 0 := by
      intro h
      have := not_isIDAT_of_isPLTE ((isPLTE_iff ch ht).mp h)
      rw [hi] at this
      cases this
    simp only [chunkTurn]
    rw [if_neg hnp, if_pos ((isIDAT_iff ch ht).mpr hi), if_neg (by omega)]
  · intro ch hch st hp hi hn
    exact chunkTurn_other st ch (hwf ch hch).2 hp hi hn

/-- A stream with a PLTE chunk, an IDAT chunk with the payload 7, 8 and the IEND chunk: the
buffer handed on is 7, 8 and `trueSize` is 2. -/
theorem mainChunks_data_witness :
    (∃ st, mainChunks ⟨[0,0,0,3, 80,76,84,69, 1,1,1, 9,9,9,9, 0,0,0,2, 73,68,65,84, 7,8,
        9,9,9,9, 0,0,0,0, 73,69,78,68, 9,9,9,9], 0⟩ = Ended.proceed st ∧
      st.data.take st.trueSize = [7, 8] ∧ st.trueSize = 2) :=
  (mainChunks_data ⟨[0,0,0,3, 80,76,84,69, 1,1,1, 9,9,9,9, 0,0,0,2, 73,68,65,84, 7,8,
      9,9,9,9, 0,0,0,0, 73,69,78,68, 9,9,9,9], 0⟩ (by decide) (by decide)
    2 ⟨0, [73,69,78,68], 151587081, []⟩ (by decide) (by decide) (by decide) (by decide)).1

/-- C17. For every stream (of fewer than `2 ^ 31` bytes) in which a PLTE chunk `ch` is read
before any IEND chunk: if the length of `ch` is not divisible by 3, `main` ends with
`ERROR_DATA_INVALID`; if it is, the turn of the loop on `ch` stores the payload of `ch` as
the palette and `length / 3` as the number of entries, and when `ch` is the last PLTE chunk
before the IEND chunk these are the palette and the number of entries after the loop. -/
theorem mainChunks_PLTE (f : FILE)
    (hsize : f.content.length < 2147483648) (hpos : f.pos ≤ f.content.length)
    (k : Nat) (ch : PNG_Chunk) (hk : (chunksOf f)[k]? = some ch) (hp : isPLTE ch = true)
    (hfirst : ∀ c ∈ (chunksOf f).take k, isIEND c = false) :
    (ch.length % 3 ≠ 0 → mainChunks f = Ended.exit ReturnCode.ERROR_DATA_INVALID) ∧
    (ch.length % 3 = 0 → ∀ st : LoopState, chunkTurn st (some ch) =
      Turn.again { st with palette := some ch.data, palLength := ch.length / 3,
                           palFound := true }) ∧
    (∀ (j : Nat) (e : PNG_Chunk), (chunksOf f)[j]? = some e → isIEND e = true →
      (∀ c ∈ (chunksOf f).take j, isIEND c = false) →
      (∀ c ∈ (chunksOf f).take j, isPLTE c = true → c.length % 3 = 0) →
      lastPLTE ((chunksOf f).take j) = some ch →
      ∃ st, mainChunks f = Ended.proceed st ∧ st.palFound = true ∧
        st.palette = some ch.data ∧ st.palLength = ch.length / 3) := by
  obtain ⟨_, hwf⟩ := readChunks_sum (f.content.length + 1) f
  have hmem : ch ∈ chunksOf f := by
    obtain ⟨hk1, hk2⟩ := List.getElem?_eq_some.mp hk
    rw [← hk2]
    exact List.getElem_mem hk1
  refine ⟨fun h3 => mainChunks_invalid f hsize hpos k ch hk hp h3 hfirst, ?_, ?_⟩
  · intro h3 st
    exact chunkTurn_PLTE st ch (hwf ch hmem).2 (hwf ch hmem).1 hp h3
  · intro j e hj he hfj hgj hlast
    obtain ⟨st, h1, _, _, h4, h5, h6⟩ := mainChunks_proceed f hsize hpos j e hj he hfj hgj
    refine ⟨st, h1, ?_, ?_, ?_⟩
    · rw [h4, List.any_eq_true]
      have hin : ch ∈ ((chunksOf f).take j).filter isPLTE :=
        List.mem_of_mem_getLast? hlast
      exact ⟨ch, (List.mem_filter.mp hin).1, hp⟩
    · rw [h5, hlast]
      rfl
    · rw [h6, hlast]
      rfl

/-- C17 (witness). A stream with a PLTE chunk of one entry, an IDAT chunk and the IEND chunk:
after the loop the palette is the payload 1, 1, 1 of the PLTE chunk, with 1 entry. -/
theorem mainChunks_PLTE_witness :
    ∃ st, mainChunks ⟨[0,0,0,3, 80,76,84,69, 1,1,1, 9,9,9,9, 0,0,0,2, 73,68,65,84, 7,8,
        9,9,9,9, 0,0,0,0, 73,69,78,68, 9,9,9,9], 0⟩ = Ended.proceed st ∧
      st.palFound = true ∧ st.palette = some [1, 1, 1] ∧ st.palLength = 1 :=
  (mainChunks_PLTE ⟨[0,0,0,3, 80,76,84,69, 1,1,1, 9,9,9,9, 0,0,0,2, 73,68,65,84, 7,8,
      9,9,9,9, 0,0,0,0, 73,69,78,68, 9,9,9,9], 0⟩ (by decide) (by decide)
    0 ⟨3, [80,76,84,69], 151587081, [1,1,1]⟩ (by decide) (by decide) (by decide)).2.2
    2 ⟨0, [73,69,78,68], 151587081, []⟩ (by decide) (by decide) (by decide) (by decide)
    (by decide)

/-! ## A file of more than `2 ^ 32` bytes -/

/-- The chunk loop on a file of `2 ^ 32 + 1` bytes that holds, after the signature and the
header chunk, an IDAT chunk with the payload 7 8: `fullfs` is 1, and the copy of the payload
writes outside the buffer `data`. -/
theorem mainChunks_short_buffer (t : List Nat)
    (hlen : (137 :: 80 :: 78 :: 71 :: 13 :: 10 :: 26 :: 10 ::
      0 :: 0 :: 0 :: 13 :: 73 :: 72 :: 68 :: 82 ::
      0 :: 0 :: 0 :: 1 :: 0 :: 0 :: 0 :: 1 :: 8 :: 0 :: 0 :: 0 :: 0 ::
      9 :: 9 :: 9 :: 9 ::
      0 :: 0 :: 0 :: 2 :: 73 :: 68 :: 65 :: 84 :: 7 :: 8 :: 9 :: 9 :: 9 :: 9 :: t).length =
        4294967297) :
    (readChunk ⟨137 :: 80 :: 78 :: 71 :: 13 :: 10 :: 26 :: 10 ::
      0 :: 0 :: 0 :: 13 :: 73 :: 72 :: 68 :: 82 ::
      0 :: 0 :: 0 :: 1 :: 0 :: 0 :: 0 :: 1 :: 8 :: 0 :: 0 :: 0 :: 0 ::
      9 :: 9 :: 9 :: 9 ::
      0 :: 0 :: 0 :: 2 :: 73 :: 68 :: 65 :: 84 :: 7 :: 8 :: 9 :: 9 :: 9 :: 9 :: t, 33⟩).1 =
        some ⟨2, [73, 68, 65, 84], 151587081, [7, 8]⟩ ∧
    mainChunks ⟨137 :: 80 :: 78 :: 71 :: 13 :: 10 :: 26 :: 10 ::
      0 :: 0 :: 0 :: 13 :: 73 :: 72 :: 68 :: 82 ::
      0 :: 0 :: 0 :: 1 :: 0 :: 0 :: 0 :: 1 :: 8 :: 0 :: 0 :: 0 :: 0 ::
      9 :: 9 :: 9 :: 9 ::
      0 :: 0 :: 0 :: 2 :: 73 :: 68 :: 65 :: 84 :: 7 :: 8 :: 9 :: 9 :: 9 :: 9 :: t, 33⟩ =
      Ended.fault := by
  constructor
  · simp [readChunk, fread, swapUInt, u32, le32]
  · unfold mainChunks
    simp only [fSize, hlen]
    rw [chunkLoop]
    simp [readChunk, fread, swapUInt, chunkTurn, strncmp, PLTE, IDAT, memcpy, toInt32, sizeT,
      u32]

theorem length_large_file (r : List Nat) (hr : r.length = 4294967226) :
    (137 :: 80 :: 78 :: 71 :: 13 :: 10 :: 26 :: 10 ::
      0 :: 0 :: 0 :: 13 :: 73 :: 72 :: 68 :: 82 ::
      0 :: 0 :: 0 :: 1 :: 0 :: 0 :: 0 :: 1 :: 8 :: 0 :: 0 :: 0 :: 0 ::
      9 :: 9 :: 9 :: 9 ::
      0 :: 0 :: 0 :: 2 :: 73 :: 68 :: 65 :: 84 :: 7 :: 8 :: 9 :: 9 :: 9 :: 9 ::
      255 :: 255 :: 255 :: 186 :: 116 :: 69 :: 88 :: 116 ::
      (r ++ [9, 9, 9, 9, 0, 0, 0, 0, 73, 69, 78, 68, 9, 9, 9, 9])).length = 4294967297 := by
  simp only [List.length_cons, List.length_append, List.length_nil, hr]

/-- C12 (failing input). A file of `2 ^ 32 + 1` bytes: the signature, the header chunk of a
1x1 greyscale image, an IDAT chunk with the payload 7 8, a tEXt chunk with a payload of
4294967226 bytes, and the IEND chunk. The `int` that `fSize` returns for it is 1, so `data` is
a buffer of 1 byte; the first chunk read is the IDAT chunk, and the copy of its two payload
bytes writes outside `data`: the loop does not hand the bytes 7 8 to `uncompress`. -/
theorem mainChunks_large_file :
    toInt32 4294967297 = 1 ∧ sizeT 1 = 1 ∧
    (137 :: 80 :: 78 :: 71 :: 13 :: 10 :: 26 :: 10 ::
      0 :: 0 :: 0 :: 13 :: 73 :: 72 :: 68 :: 82 ::
      0 :: 0 :: 0 :: 1 :: 0 :: 0 :: 0 :: 1 :: 8 :: 0 :: 0 :: 0 :: 0 ::
      9 :: 9 :: 9 :: 9 ::
      0 :: 0 :: 0 :: 2 :: 73 :: 68 :: 65 :: 84 :: 7 :: 8 :: 9 :: 9 :: 9 :: 9 ::
      255 :: 255 :: 255 :: 186 :: 116 :: 69 :: 88 :: 116 ::
      (List.replicate 4294967226 0 ++
        [9, 9, 9, 9, 0, 0, 0, 0, 73, 69, 78, 68, 9, 9, 9, 9])).length = 4294967297 ∧
    (readChunk ⟨137 :: 80 :: 78 :: 71 :: 13 :: 10 :: 26 :: 10 ::
      0 :: 0 :: 0 :: 13 :: 73 :: 72 :: 68 :: 82 ::
      0 :: 0 :: 0 :: 1 :: 0 :: 0 :: 0 :: 1 :: 8 :: 0 :: 0 :: 0 :: 0 ::
      9 :: 9 :: 9 :: 9 ::
      0 :: 0 :: 0 :: 2 :: 73 :: 68 :: 65 :: 84 :: 7 :: 8 :: 9 :: 9 :: 9 :: 9 ::
      255 :: 255 :: 255 :: 186 :: 116 :: 69 :: 88 :: 116 ::
      (List.replicate 4294967226 0 ++
        [9, 9, 9, 9, 0, 0, 0, 0, 73, 69, 78, 68, 9, 9, 9, 9]), 33⟩).1 =
        some ⟨2, [73, 68, 65, 84], 151587081, [7, 8]⟩ ∧
    mainChunks ⟨137 :: 80 :: 78 :: 71 :: 13 :: 10 :: 26 :: 10 ::
      0 :: 0 :: 0 :: 13 :: 73 :: 72 :: 68 :: 82 ::
      0 :: 0 :: 0 :: 1 :: 0 :: 0 :: 0 :: 1 :: 8 :: 0 :: 0 :: 0 :: 0 ::
      9 :: 9 :: 9 :: 9 ::
      0 :: 0 :: 0 :: 2 :: 73 :: 68 :: 65 :: 84 :: 7 :: 8 :: 9 :: 9 :: 9 :: 9 ::
      255 :: 255 :: 255 :: 186 :: 116 :: 69 :: 88 :: 116 ::
      (List.replicate 4294967226 0 ++
        [9, 9, 9, 9, 0, 0, 0, 0, 73, 69, 78, 68, 9, 9, 9, 9]), 33⟩ = Ended.fault :=
  ⟨by decide, by decide, length_large_file _ (List.length_replicate _ _),
    mainChunks_short_buffer _ (length_large_file _ (List.length_replicate _ _))⟩

end PNG
